import Mathlib

/-!
Verification of the CodeMapper batching / incremental-convergence engine.

The definitions below are a shallow embedding of the TypeScript sources:
  * `src/App.tsx`            — interactive run loop, retry, save/load/restore
  * `src/services/llmService.ts` — response parsing (`parseOutput`, `cleanOutput`)
  * the headless CLI runner  — scanner-side batch planner and run loop
Strings are modelled as `List Char` so that all operations are executable and
amenable to induction.
-/

/-- Strings of the program are modelled as lists of characters. -/
abbrev Str := List Char

/-- Coerce a Lean string literal to the `List Char` model. -/
def str (s : String) : Str := s.data

/-- File status enumeration from `src/types.ts` (`ProcessingStatus`). -/
inductive ProcessingStatus where
  | PENDING
  | PROCESSING
  | COMPLETED
  | FAILED
  | SKIPPED
deriving DecidableEq, Repr

open ProcessingStatus

/-- Log levels from `src/types.ts` (`LogEntry.level`). -/
inductive LogLevel where
  | info
  | success
  | warn
  | error
deriving DecidableEq, Repr

/-- `LogEntry` from `src/types.ts`. -/
structure LogEntry where
  timestamp : Nat
  level : LogLevel
  message : Str
deriving DecidableEq, Repr

/-- `FileEntry` from `src/types.ts`.  The UI-only fields `name`, `extension`
and the browser `handle` are omitted; `content` stands for the text that
`handle.text()` yields. -/
structure FileEntry where
  path : Str
  size : Nat
  status : ProcessingStatus
  error : Option Str := none
  content : Str := []
deriving DecidableEq, Repr

instance : Inhabited FileEntry := ⟨{ path := [], size := 0, status := PENDING }⟩

/-- A diagram map (`Record<string, string>` in the source), modelled as a
partial function from diagram key to Mermaid source. -/
abbrev DiagramSet := Str → Option Str

/-- `ProjectState` from `src/types.ts` (the `startTime` UI field is omitted). -/
structure ProjectState where
  projectName : Str
  files : List FileEntry
  processedCount : Nat
  totalCount : Nat
  currentFileIndex : Nat
  isProcessing : Bool
  diagrams : DiagramSet
  activeDiagramId : Str
  logs : List LogEntry

/-- `SavedState` from `src/types.ts`: the persisted snapshot format. -/
structure SavedState where
  projectName : Str
  processedCount : Nat
  currentFileIndex : Nat
  diagrams : DiagramSet
  logs : List LogEntry
  filePathsProcessed : List Str

/-- `C4UpdateResult` from `src/services/llmService.ts`. -/
structure C4UpdateResult where
  overviewDiagram : Str
  moduleDiagram : Str
  moduleName : Str
deriving DecidableEq, Repr

/-- The reserved overview key.  The UI constant is imported from
`constants.ts` whose current revision is not under `src/`; the CLI runner
defines the same constant as `'System Overview'`, which we use. -/
def OVERVIEW_DIAGRAM_KEY : Str := str "System Overview"

/-- The fixed seed template for the overview diagram (CLI runner,
`INITIAL_OVERVIEW_MERMAID`). -/
def INITIAL_OVERVIEW_MERMAID : Str :=
  str "C4Context\n    title System Context Diagram (Overview)\n    \n    Container_Boundary(system, \"System Scope\") \x7b\n        System(core_app, \"Core Application\", \"The main software system being analyzed\")\n    \x7d\n"

/-- `MAX_FILE_SIZE_BYTES` from `constants.ts` (also `MAX_FILE_SIZE` in the CLI). -/
def MAX_FILE_SIZE_BYTES : Nat := 100 * 1024

/-- `DEFAULT_BATCH_COUNT` from `constants.ts`. -/
def DEFAULT_BATCH_COUNT : Nat := 5

/-- `DEFAULT_BATCH_SIZE_KB` from `constants.ts`. -/
def DEFAULT_BATCH_SIZE_KB : Nat := 50

/-- JavaScript `a || b` on numbers (`0` is falsy). -/
def orDefault (n d : Nat) : Nat := if n = 0 then d else n

/-- Index of the last occurrence of `c`, accumulator form
(JavaScript `String.prototype.lastIndexOf` restricted to one character). -/
def lastIndexOfAux (c : Char) : List Char → Nat → Option Nat → Option Nat
  | [], _, acc => acc
  | a :: rest, i, acc => lastIndexOfAux c rest (i + 1) (if a = c then some i else acc)

/-- `file.path.substring(0, file.path.lastIndexOf('/'))` from `App.tsx`:
the directory component of a path, `""` when the path has no slash
(JS `substring(0, -1)` clamps to the empty string). -/
def dirOf (p : Str) : Str :=
  match lastIndexOfAux '/' p 0 none with
  | none => []
  | some i => p.take i

/-- Node's `path.dirname` as used by the CLI runner on relative paths:
`"."` when the path has no slash, otherwise the prefix before the last slash. -/
def dirname (p : Str) : Str :=
  match lastIndexOfAux '/' p 0 none with
  | none => str "."
  | some i => p.take i

/-- Split a character list on a separator character
(JavaScript `String.prototype.split` with a one-character separator). -/
def splitOnChar (c : Char) : List Char → List (List Char)
  | [] => [[]]
  | a :: rest =>
    match splitOnChar c rest with
    | [] => [[a]]
    | h :: t => if a = c then [] :: h :: t else (a :: h) :: t

/-- `getModuleName` from `src/services/llmService.ts`: the module key derived
from a file's containing directory, `"root"` for paths without a directory. -/
def getModuleName (filePath : Str) : Str :=
  let parts := splitOnChar '/' filePath
  if parts.length ≤ 1 then str "root"
  else List.intercalate (str "/") (parts.dropLast)

/-- `currentBatchDir || 'root'` from both run loops: the resolved diagram key
for a batch (`null` and the empty string are falsy in JavaScript). -/
def resolvedBatchKey (dir : Option Str) : Str :=
  match dir with
  | none => str "root"
  | some d => if d = [] then str "root" else d

/-- A status that the planner skips over and the snapshot counts as processed
(`status === COMPLETED || status === SKIPPED`). -/
def isCS (st : ProcessingStatus) : Prop := st = COMPLETED ∨ st = SKIPPED

instance (st : ProcessingStatus) : Decidable (isCS st) := by
  unfold isCS; infer_instance

/-- The number of files whose status is Completed or Skipped (the quantity the
auto-save effect serializes and the spec's invariant tracks). -/
def countCS (files : List FileEntry) : Nat :=
  (files.filter (fun f => decide (isCS f.status))).length

/-- The spec's RunState invariant: `processedCount` equals the number of
Completed-or-Skipped files. -/
def RunInv (s : ProjectState) : Prop := s.processedCount = countCS s.files

instance (s : ProjectState) : Decidable (RunInv s) := by
  unfold RunInv; infer_instance

/-- `newFiles[i].status = st` on a copied array (in-range update; a
non-existent index leaves the list unchanged). -/
def setStatus : List FileEntry → Nat → ProcessingStatus → List FileEntry
  | [], _, _ => []
  | f :: fs, 0, st => { f with status := st } :: fs
  | f :: fs, n + 1, st => f :: setStatus fs n st

/-- `batchIndices.forEach(i => newFiles[i].status = st)` from `App.tsx`. -/
def setStatuses (files : List FileEntry) (idxs : List Nat) (st : ProcessingStatus) :
    List FileEntry :=
  idxs.foldl (fun fs i => setStatus fs i st) files

/-- `newFiles[i].status = FAILED; newFiles[i].error = errorMessage` for one index. -/
def setFailedOne : List FileEntry → Nat → Str → List FileEntry
  | [], _, _ => []
  | f :: fs, 0, e => { f with status := FAILED, error := some e } :: fs
  | f :: fs, n + 1, e => f :: setFailedOne fs n e

/-- The `batchIndices.forEach` loop in the catch branch of `processNextFile`. -/
def setFailedAll (files : List FileEntry) (idxs : List Nat) (e : Str) : List FileEntry :=
  idxs.foldl (fun fs i => setFailedOne fs i e) files

/-- `Math.max(...batchIndices)` (indices are naturals; `0` identity). -/
def maxList (l : List Nat) : Nat := l.foldl Nat.max 0

/-- The batch-planning `while` loop of `processNextFile` (`App.tsx` lines
275–312).  Walks the file suffix starting at `idx`, accumulating admitted
indices, the cumulative byte size and the batch directory.  Returns
`(batchIndices, idx, currentBatchDir)` at loop exit. -/
def planBatchAux (cl sl mf : Nat) :
    List FileEntry → Nat → List Nat → Nat → Option Str → List Nat × Nat × Option Str
  | [], idx, batch, _, dir => (batch, idx, dir)
  | f :: rs, idx, batch, size, dir =>
    if cl ≤ batch.length then (batch, idx, dir)
    else if f.status = SKIPPED ∨ f.status = COMPLETED then
      planBatchAux cl sl mf rs (idx + 1) batch size dir
    else if dir ≠ none ∧ dir ≠ some (dirOf f.path) ∧ batch ≠ [] then (batch, idx, dir)
    else if mf < f.size then
      (if batch = [] then batch ++ [idx] else batch, idx,
        if dir = none then some (dirOf f.path) else dir)
    else if sl < size + f.size then
      (if batch = [] then batch ++ [idx] else batch, idx,
        if dir = none then some (dirOf f.path) else dir)
    else
      planBatchAux cl sl mf rs (idx + 1) (batch ++ [idx]) (size + f.size)
        (if dir = none then some (dirOf f.path) else dir)

/-- The planner entered at the current cursor with an empty batch. -/
def planBatch (cl sl mf : Nat) (files : List FileEntry) (cursor : Nat) :
    List Nat × Nat × Option Str :=
  planBatchAux cl sl mf (files.drop cursor) cursor [] 0 none

/-- `{...prev.diagrams, [OVERVIEW_DIAGRAM_KEY]: ov, [modKey]: md}`: the later
assignment wins, so the module key is looked up first. -/
def mergeDiagrams (m : DiagramSet) (ov : Str) (modKey md : Str) : DiagramSet :=
  fun k => if k = modKey then some md else if k = OVERVIEW_DIAGRAM_KEY then some ov else m k

/-- The success `setState` of `processNextFile` (`App.tsx` lines 372–388). -/
def successUpdate (s : ProjectState) (batchIndices : List Nat) (batchDirName : Str)
    (result : C4UpdateResult) : ProjectState :=
  { s with
    files := setStatuses s.files batchIndices COMPLETED
    diagrams := mergeDiagrams s.diagrams result.overviewDiagram batchDirName result.moduleDiagram
    currentFileIndex := maxList batchIndices + 1
    processedCount := s.processedCount + batchIndices.length }

/-- The failure `setState` of `processNextFile` (`App.tsx` lines 397–408). -/
def failureUpdate (s : ProjectState) (batchIndices : List Nat) (errorMessage : Str) :
    ProjectState :=
  { s with
    files := setFailedAll s.files batchIndices errorMessage
    isProcessing := false }

/-- The skip `setState` of `processNextFile` (`App.tsx` lines 328–337). -/
def skipUpdate (s : ProjectState) (i0 : Nat) : ProjectState :=
  { s with
    files := setStatus s.files i0 SKIPPED
    currentFileIndex := i0 + 1
    processedCount := s.processedCount + 1 }

/-- The skip-only test of `processNextFile`:
`filesToProcess.length === 1 && filesToProcess[0].size > MAX_FILE_SIZE_BYTES`. -/
def skipOnlyBatch (files : List FileEntry) (batch : List Nat) : Bool :=
  match batch with
  | [i0] => decide (MAX_FILE_SIZE_BYTES < ((files.getD i0 default).size))
  | _ => false

/-- One invocation of `processNextFile` (`App.tsx` lines 255–410).  The
generation adapter is the opaque `gen` (overview text, module text or null,
batch name/content pairs); the project-tree argument is omitted because `gen`
is quantified over.  The returned Boolean records whether another iteration is
scheduled (`setTimeout(processNextFile, …)`).  The transient PROCESSING marking
and the log appends (separate `setState` calls in the source) are collapsed
into the atomic per-batch update. -/
def processNextFileStep (batchCount batchSizeKB : Nat)
    (gen : Str → Option Str → List (Str × Str) → Except Str C4UpdateResult)
    (s : ProjectState) : ProjectState × Bool :=
  let batchSizeLimitBytes := orDefault batchSizeKB DEFAULT_BATCH_SIZE_KB * 1024
  let batchCountLimit := orDefault batchCount DEFAULT_BATCH_COUNT
  if s.isProcessing = false then (s, false)
  else if s.files.length ≤ s.currentFileIndex then
    ({ s with isProcessing := false }, false)
  else
    let P := planBatch batchCountLimit batchSizeLimitBytes MAX_FILE_SIZE_BYTES
      s.files s.currentFileIndex
    let batchIndices := P.1
    if batchIndices = [] then ({ s with currentFileIndex := P.2.1 }, true)
    else
      let batchDirName := resolvedBatchKey P.2.2
      if skipOnlyBatch s.files batchIndices then (skipUpdate s batchIndices.headI, true)
      else
        let filesToProcess := batchIndices.map (fun i => s.files.getD i default)
        let fileInputs := filesToProcess.map (fun f => (f.path, f.content))
        let currentOverview := (s.diagrams OVERVIEW_DIAGRAM_KEY).getD []
        let currentModule :=
          match s.diagrams batchDirName with
          | none => none
          | some v => if v = [] then none else some v
        match gen currentOverview currentModule fileInputs with
        | Except.ok result => (successUpdate s batchIndices batchDirName result, true)
        | Except.error e => (failureUpdate s batchIndices e, false)

/-- `handleRetry` from `App.tsx` (lines 174–187).
`prev.processedCount > 0 ? prev.processedCount - 1 : 0` is `Nat` subtraction. -/
def handleRetry (s : ProjectState) (index : Nat) : ProjectState :=
  let newFiles :=
    match s.files.get? index with
    | none => s.files
    | some f => s.files.set index { f with status := PENDING, error := none }
  { s with
    files := newFiles
    currentFileIndex := min s.currentFileIndex index
    processedCount := s.processedCount - 1 }

/-- The auto-save effect's snapshot (`App.tsx` lines 46–61): paths are the
files whose status is Completed or Skipped. -/
def autoSaveSnapshot (s : ProjectState) : SavedState :=
  { projectName := s.projectName
    processedCount := s.processedCount
    currentFileIndex := s.currentFileIndex
    diagrams := s.diagrams
    logs := s.logs.drop (s.logs.length - 50)
    filePathsProcessed :=
      (s.files.filter (fun f => decide (isCS f.status))).map (·.path) }

/-- `handleSaveState` from `App.tsx` (lines 189–197): paths are
`state.files.slice(0, state.currentFileIndex)`, regardless of status. -/
def manualSaveSnapshot (s : ProjectState) : SavedState :=
  { projectName := s.projectName
    processedCount := s.processedCount
    currentFileIndex := s.currentFileIndex
    diagrams := s.diagrams
    logs := s.logs
    filePathsProcessed := (s.files.take s.currentFileIndex).map (·.path) }

/-- `handleLoadState` from `App.tsx` (lines 216–251), after a successful JSON
parse: every current file whose path is in `filePathsProcessed` becomes
Completed, and the scalar fields and the whole diagram map are replaced by the
snapshot's. -/
def handleLoadState (s : ProjectState) (json : SavedState) : ProjectState :=
  let updatedFiles :=
    if 0 < s.files.length then
      s.files.map (fun f =>
        if f.path ∈ json.filePathsProcessed then { f with status := COMPLETED } else f)
    else s.files
  { s with
    projectName := json.projectName
    files := updatedFiles
    diagrams := json.diagrams
    logs := json.logs ++ [{ timestamp := 0, level := LogLevel.warn, message := str "State loaded." }]
    processedCount := json.processedCount
    currentFileIndex := json.currentFileIndex
    activeDiagramId := OVERVIEW_DIAGRAM_KEY }

/-- A raw selected file before it becomes a `FileEntry`. -/
structure RawFile where
  path : Str
  size : Nat
  content : Str := []
deriving DecidableEq, Repr

/-- The `FileEntry` records constructed from the selected files (all Pending). -/
def toFileEntries (entries0 : List RawFile) : List FileEntry :=
  entries0.map (fun r => { path := r.path, size := r.size, status := PENDING, content := r.content })

/-- `fileEntries[0]?.path.split('/')[0] || 'Project'`. -/
def projectNameOf (entries : List FileEntry) : Str :=
  match entries with
  | [] => str "Project"
  | f :: _ =>
    let seg := f.path.takeWhile (fun c => c ≠ '/')
    if seg = [] then str "Project" else seg

/-- `handleFilesSelected` from `App.tsx` (lines 109–172).  `entries0` is the
selected file list already sorted by path (the `localeCompare` sort);
`autosave` is the parsed auto-save snapshot, `none` when absent or unparsable.
When the snapshot's project name matches, files whose paths it recorded become
Completed, the cursor moves to the first Pending file (`findIndex`, list
length when none), and count/diagrams come from the snapshot. -/
def handleFilesSelected (prev : ProjectState) (entries0 : List RawFile)
    (autosave : Option SavedState) : ProjectState :=
  let fileEntries : List FileEntry := toFileEntries entries0
  let projectName := projectNameOf fileEntries
  let base : ProjectState :=
    { prev with
      projectName := projectName
      files := fileEntries
      totalCount := fileEntries.length
      processedCount := 0
      currentFileIndex := 0
      diagrams := fun k => if k = OVERVIEW_DIAGRAM_KEY then some INITIAL_OVERVIEW_MERMAID else none
      activeDiagramId := OVERVIEW_DIAGRAM_KEY
      logs := [{ timestamp := 0, level := LogLevel.info, message := str "Loaded files." }] }
  match autosave with
  | none => base
  | some saved =>
    if saved.projectName = projectName then
      let restoredFiles := fileEntries.map (fun f =>
        if f.path ∈ saved.filePathsProcessed then { f with status := COMPLETED } else f)
      let nextIndex := restoredFiles.findIdx (fun f => f.status = PENDING)
      { base with
        files := restoredFiles
        diagrams := saved.diagrams
        processedCount := saved.processedCount
        currentFileIndex := nextIndex }
    else base

/-- The initial `useState` value of `App` (`App.tsx` lines 25–36). -/
def initialProjectState : ProjectState :=
  { projectName := str "New Project"
    files := []
    processedCount := 0
    totalCount := 0
    currentFileIndex := 0
    isProcessing := false
    diagrams := fun k => if k = OVERVIEW_DIAGRAM_KEY then some INITIAL_OVERVIEW_MERMAID else none
    activeDiagramId := OVERVIEW_DIAGRAM_KEY
    logs := [] }

/-! ## Response parsing (`src/services/llmService.ts`) -/

/-- First index at or after offset `i` where `pat` occurs in `t`
(the regex engine's left-to-right scan for a literal). -/
def findSub (pat : Str) : Str → Nat → Option Nat
  | [], i => if pat.isPrefixOf [] then some i else none
  | c :: rest, i =>
    if pat.isPrefixOf (c :: rest) then some i else findSub pat rest (i + 1)

/-- Whether `pat` occurs anywhere in `t`. -/
def containsSub (pat : Str) : Str → Bool
  | [] => pat.isPrefixOf []
  | c :: rest => pat.isPrefixOf (c :: rest) || containsSub pat rest

/-- Semantics of `text.match(/START([\s\S]*?)(?=END|$)/)`: the capture begins
after the first occurrence of `START` and extends lazily up to the next
occurrence of `END` (or the end of the text). -/
def regexCapture (text startMarker endMarker : Str) : Option Str :=
  match findSub startMarker text 0 with
  | none => none
  | some i =>
    let rest := text.drop (i + startMarker.length)
    match findSub endMarker rest 0 with
    | none => some rest
    | some j => some (rest.take j)

/-- JavaScript `String.prototype.trim` (both ends). -/
def trimStr (s : Str) : Str :=
  ((s.dropWhile Char.isWhitespace).reverse.dropWhile Char.isWhitespace).reverse

/-- Drop `pre` from the front of `s` when it is a prefix (one anchored
`replace`). -/
def dropStart (pre s : Str) : Str :=
  if pre.isPrefixOf s then s.drop pre.length else s

/-- Drop `suf` from the end of `s` when it is a suffix (anchored `replace`
with `$`, which in JavaScript without `/m` matches only at the very end). -/
def dropEnd (suf s : Str) : Str :=
  if s.reverse.take suf.length = suf.reverse then s.take (s.length - suf.length) else s

/-- `cleanOutput` from `src/services/llmService.ts` (lines 175–181): strips a
leading fenced-code opener, then a bare fence opener, then a trailing fence,
then trims. -/
def cleanOutput (text : Str) : Str :=
  trimStr (dropEnd (str "```") (dropStart (str "```\n") (dropStart (str "```mermaid\n") text)))

/-- Modelled from the spec: `parseOutput` calls a helper `cleanMermaid` that is
not defined in any file under `src/`; per the spec, "any fenced-code-block
wrapping in the response is stripped", which is exactly the behaviour of the
in-source `cleanOutput`, so `cleanMermaid` is modelled as that stripping. -/
def cleanMermaid (text : Str) : Str := cleanOutput text

/-- The `<<<OVERVIEW>>>` marker. -/
def overviewMarker : Str := str "<<<OVERVIEW>>>"

/-- The `<<<MODULE>>>` marker. -/
def moduleMarker : Str := str "<<<MODULE>>>"

/-- The `<<<END>>>` marker. -/
def endMarker : Str := str "<<<END>>>"

/-- `parseOutput` from `src/services/llmService.ts` (lines 110–119): each
section falls back to its prior value when the section's marker is absent. -/
def parseOutput (text originalOverview originalModule moduleName : Str) : C4UpdateResult :=
  let overviewMatch := regexCapture text overviewMarker moduleMarker
  let moduleMatch := regexCapture text moduleMarker endMarker
  { overviewDiagram :=
      match overviewMatch with
      | some m => cleanMermaid m
      | none => originalOverview
    moduleDiagram :=
      match moduleMatch with
      | some m => cleanMermaid m
      | none => originalModule
    moduleName := moduleName }

/-! ## The headless CLI runner (scanner-side `main`) -/

/-- A scanned file in the CLI runner: target-relative path, size on disk and
the text `readFileSync` yields. -/
structure CliFile where
  path : Str
  size : Nat
  content : Str := []
deriving DecidableEq, Repr

/-- The persisted CLI state (`interface State` of the runner):
`processedFiles` plus the diagram map. -/
structure CliState where
  processedFiles : List Str
  diagrams : DiagramSet

/-- The CLI batch-construction `while` loop (runner lines 304–328).  Unlike
the interactive planner it has no per-file status (the remaining list is
pre-filtered), it records an oversized file as processed and `continue`s
(after the batch directory may already have been fixed from it), and the
size-cap check admits a first file that alone exceeds the cap.  Returns
`(batch, i, currentBatchDir, skippedPaths)`. -/
def cliPlanAux (cl sl mf : Nat) :
    List CliFile → Nat → List CliFile → Nat → Option Str → List Str →
      List CliFile × Nat × Option Str × List Str
  | [], i, batch, _, dir, skipped => (batch, i, dir, skipped)
  | f :: rs, i, batch, size, dir, skipped =>
    if cl ≤ batch.length then (batch, i, dir, skipped)
    else if dir ≠ none ∧ dir ≠ some (dirname f.path) ∧ batch ≠ [] then (batch, i, dir, skipped)
    else if mf < f.size then
      cliPlanAux cl sl mf rs (i + 1) batch size
        (if dir = none then some (dirname f.path) else dir) (skipped ++ [f.path])
    else if sl < size + f.size ∧ batch ≠ [] then
      (batch, i, if dir = none then some (dirname f.path) else dir, skipped)
    else
      cliPlanAux cl sl mf rs (i + 1) (batch ++ [f]) (size + f.size)
        (if dir = none then some (dirname f.path) else dir) skipped

/-- The CLI planner entered at index `i` with an empty batch. -/
def cliPlanBatch (cl sl mf : Nat) (files : List CliFile) (i : Nat) :
    List CliFile × Nat × Option Str × List Str :=
  cliPlanAux cl sl mf (files.drop i) i [] 0 none []

/-- One iteration of the CLI `while (i < remainingFiles.length)` loop (runner
lines 298–370).  `g` abstracts `generateC4UpdateCLI`.  The Boolean is `true`
when the loop continues — note that it continues even when `g` fails: the
catch branch only logs, so the failed batch's files are merely left out of
`processedFiles` while the run advances to the next batch. -/
def cliStep (g : Str → Option Str → List CliFile → Except Str C4UpdateResult)
    (files : List CliFile) (st : CliState) (i : Nat) : (CliState × Nat) × Bool :=
  if files.length ≤ i then ((st, i), false)
  else
    let P := cliPlanBatch DEFAULT_BATCH_COUNT (DEFAULT_BATCH_SIZE_KB * 1024)
      MAX_FILE_SIZE_BYTES files i
    let st1 : CliState := { st with processedFiles := st.processedFiles ++ P.2.2.2 }
    match P.1 with
    | [] => ((st1, P.2.1), true)
    | batch =>
      let batchDirName := resolvedBatchKey P.2.2.1
      let currentOverview := (st1.diagrams OVERVIEW_DIAGRAM_KEY).getD []
      let currentModule :=
        match st1.diagrams batchDirName with
        | none => none
        | some v => if v = [] then none else some v
      match g currentOverview currentModule batch with
      | Except.ok result =>
        (({ processedFiles := st1.processedFiles ++ batch.map (·.path)
            diagrams := mergeDiagrams st1.diagrams result.overviewDiagram
              batchDirName result.moduleDiagram }, P.2.1), true)
      | Except.error _ => ((st1, P.2.1), true)

/-- The CLI run loop, fuel-bounded (each iteration advances `i`, so any fuel
of at least `files.length + 1` reproduces the loop exactly). -/
def cliRunAux (g : Str → Option Str → List CliFile → Except Str C4UpdateResult)
    (files : List CliFile) : Nat → CliState → Nat → CliState
  | 0, st, _ => st
  | fuel + 1, st, i =>
    match cliStep g files st i with
    | ((st', i'), true) => cliRunAux g files fuel st' i'
    | ((st', _), false) => st'

/-- The fresh CLI state (runner lines 277–280). -/
def cliInitialState : CliState :=
  { processedFiles := []
    diagrams := fun k => if k = OVERVIEW_DIAGRAM_KEY then some INITIAL_OVERVIEW_MERMAID else none }

/-! ## Basic list lemmas -/

theorem drop_cons_get {α : Type} (l : List α) (i : Nat) (f : α) (rs : List α)
    (h : l.drop i = f :: rs) :
    ∃ hlt : i < l.length, l.get ⟨i, hlt⟩ = f ∧ l.drop (i + 1) = rs := by
  induction l generalizing i with
  | nil => simp at h
  | cons a t ih =>
    cases i with
    | zero =>
      simp at h
      refine ⟨by simp, ?_, ?_⟩ <;> simp [h.1, h.2]
    | succ n =>
      simp only [List.drop_succ_cons] at h
      obtain ⟨hlt, hget, hdrop⟩ := ih n h
      exact ⟨by simpa using Nat.succ_lt_succ hlt, hget, by simpa using hdrop⟩

theorem mem_le_maxList (l : List Nat) (a : Nat) (h : a ∈ l) : a ≤ maxList l := by
  have key : ∀ (l : List Nat) (acc : Nat), a ∈ l → a ≤ l.foldl Nat.max acc := by
    intro l
    induction l with
    | nil => intro acc h; simp at h
    | cons b t ih =>
      intro acc h
      rcases List.mem_cons.mp h with rfl | hmem
      · have h1 : a ≤ Nat.max acc a := Nat.le_max_right _ _
        have h2 : ∀ (t : List Nat) (x y : Nat), x ≤ y → t.foldl Nat.max x ≤ t.foldl Nat.max y := by
          intro t
          induction t with
          | nil => intro x y hxy; simpa using hxy
          | cons c u ihu =>
            intro x y hxy
            simp only [List.foldl_cons]
            exact ihu _ _ (Nat.max_le.mpr ⟨Nat.le_trans hxy (Nat.le_max_left _ _), Nat.le_max_right _ _⟩)
        have h3 : t.foldl Nat.max (Nat.max acc a) ≥ a := by
          have hbase : ∀ (t : List Nat) (x : Nat), x ≤ t.foldl Nat.max x := by
            intro t
            induction t with
            | nil => intro x; simp
            | cons c u ihu =>
              intro x
              simp only [List.foldl_cons]
              exact Nat.le_trans (Nat.le_max_left x c) (ihu _)
          exact Nat.le_trans h1 (hbase t _)
        simpa using h3
      · exact ih _ hmem
  exact key l 0 h

/-! ## Lemmas about status updates -/

theorem length_setStatus (files : List FileEntry) (i : Nat) (st : ProcessingStatus) :
    (setStatus files i st).length = files.length := by
  induction files generalizing i with
  | nil => rfl
  | cons f fs ih => cases i <;> simp [setStatus, ih]

theorem length_setFailedOne (files : List FileEntry) (i : Nat) (e : Str) :
    (setFailedOne files i e).length = files.length := by
  induction files generalizing i with
  | nil => rfl
  | cons f fs ih => cases i <;> simp [setFailedOne, ih]

theorem get_setStatus_self (files : List FileEntry) (i : Nat) (st : ProcessingStatus)
    (h : i < files.length) :
    (setStatus files i st).get ⟨i, by rw [length_setStatus]; exact h⟩ =
      { files.get ⟨i, h⟩ with status := st } := by
  induction files generalizing i with
  | nil => simp at h
  | cons f fs ih =>
    cases i with
    | zero => rfl
    | succ n => exact ih n (by simpa using Nat.lt_of_succ_lt_succ h)

theorem get_setStatus_ne (files : List FileEntry) (i j : Nat) (st : ProcessingStatus)
    (hne : j ≠ i) (h : j < files.length) :
    (setStatus files i st).get ⟨j, by rw [length_setStatus]; exact h⟩ =
      files.get ⟨j, h⟩ := by
  induction files generalizing i j with
  | nil => simp at h
  | cons f fs ih =>
    cases i with
    | zero =>
      cases j with
      | zero => exact absurd rfl hne
      | succ m => rfl
    | succ n =>
      cases j with
      | zero => rfl
      | succ m =>
        exact ih n m (fun hc => hne (by rw [hc])) (by simpa using Nat.lt_of_succ_lt_succ h)

theorem get_setFailedOne_self (files : List FileEntry) (i : Nat) (e : Str)
    (h : i < files.length) :
    (setFailedOne files i e).get ⟨i, by rw [length_setFailedOne]; exact h⟩ =
      { files.get ⟨i, h⟩ with status := FAILED, error := some e } := by
  induction files generalizing i with
  | nil => simp at h
  | cons f fs ih =>
    cases i with
    | zero => rfl
    | succ n => exact ih n (by simpa using Nat.lt_of_succ_lt_succ h)

theorem get_setFailedOne_ne (files : List FileEntry) (i j : Nat) (e : Str)
    (hne : j ≠ i) (h : j < files.length) :
    (setFailedOne files i e).get ⟨j, by rw [length_setFailedOne]; exact h⟩ =
      files.get ⟨j, h⟩ := by
  induction files generalizing i j with
  | nil => simp at h
  | cons f fs ih =>
    cases i with
    | zero =>
      cases j with
      | zero => exact absurd rfl hne
      | succ m => rfl
    | succ n =>
      cases j with
      | zero => rfl
      | succ m =>
        exact ih n m (fun hc => hne (by rw [hc])) (by simpa using Nat.lt_of_succ_lt_succ h)

theorem get?_setStatus_self (files : List FileEntry) (i : Nat) (st : ProcessingStatus) :
    (setStatus files i st).get? i = (files.get? i).map (fun f => { f with status := st }) := by
  induction files generalizing i with
  | nil => cases i <;> rfl
  | cons f fs ih =>
    cases i with
    | zero => rfl
    | succ n => simpa [setStatus] using ih n

theorem get?_setStatus_ne (files : List FileEntry) (i j : Nat) (st : ProcessingStatus)
    (hne : j ≠ i) : (setStatus files i st).get? j = files.get? j := by
  induction files generalizing i j with
  | nil => cases i <;> rfl
  | cons f fs ih =>
    cases i with
    | zero => cases j with
      | zero => exact absurd rfl hne
      | succ m => rfl
    | succ n => cases j with
      | zero => rfl
      | succ m => simpa [setStatus] using ih n m (fun hc => hne (by rw [hc]))

theorem get?_setFailedOne_self (files : List FileEntry) (i : Nat) (e : Str) :
    (setFailedOne files i e).get? i =
      (files.get? i).map (fun f => { f with status := FAILED, error := some e }) := by
  induction files generalizing i with
  | nil => cases i <;> rfl
  | cons f fs ih =>
    cases i with
    | zero => rfl
    | succ n => simpa [setFailedOne] using ih n

theorem get?_setFailedOne_ne (files : List FileEntry) (i j : Nat) (e : Str)
    (hne : j ≠ i) : (setFailedOne files i e).get? j = files.get? j := by
  induction files generalizing i j with
  | nil => cases i <;> rfl
  | cons f fs ih =>
    cases i with
    | zero => cases j with
      | zero => exact absurd rfl hne
      | succ m => rfl
    | succ n => cases j with
      | zero => rfl
      | succ m => simpa [setFailedOne] using ih n m (fun hc => hne (by rw [hc]))

theorem countCS_cons (f : FileEntry) (fs : List FileEntry) :
    countCS (f :: fs) = (if isCS f.status then 1 else 0) + countCS fs := by
  by_cases h : isCS f.status <;> simp [countCS, List.filter_cons, h, Nat.add_comm]

theorem countCS_setStatus_of_not (files : List FileEntry) (i : Nat) (st : ProcessingStatus)
    (f : FileEntry) (hget : files.get? i = some f) (hold : ¬ isCS f.status) :
    countCS (setStatus files i st) = countCS files + (if isCS st then 1 else 0) := by
  induction files generalizing i with
  | nil => simp at hget
  | cons g fs ih =>
    cases i with
    | zero =>
      simp only [List.get?] at hget
      injection hget with hg
      subst hg
      simp only [setStatus, countCS_cons]
      simp [hold]
      omega
    | succ n =>
      simp only [List.get?] at hget
      simp only [setStatus, countCS_cons, ih n hget]
      omega

theorem countCS_setFailedOne_of_not (files : List FileEntry) (i : Nat) (e : Str)
    (f : FileEntry) (hget : files.get? i = some f) (hold : ¬ isCS f.status) :
    countCS (setFailedOne files i e) = countCS files := by
  induction files generalizing i with
  | nil => simp at hget
  | cons g fs ih =>
    cases i with
    | zero =>
      simp only [List.get?] at hget
      injection hget with hg
      subst hg
      simp only [setFailedOne, countCS_cons]
      have h1 : ¬ isCS FAILED := by simp [isCS]
      simp [h1, hold]
    | succ n =>
      simp only [List.get?] at hget
      simp only [setFailedOne, countCS_cons, ih n hget]

theorem countCS_setStatuses_CS (st : ProcessingStatus) (hst : isCS st) :
    ∀ (idxs : List Nat) (files : List FileEntry),
      List.Pairwise (· ≠ ·) idxs →
      (∀ i ∈ idxs, ∃ f, files.get? i = some f ∧ ¬ isCS f.status) →
      countCS (setStatuses files idxs st) = countCS files + idxs.length := by
  intro idxs
  induction idxs with
  | nil => intro files _ _; simp [setStatuses]
  | cons i rest ih =>
    intro files hpw hok
    obtain ⟨f, hget, hncs⟩ := hok i (by simp)
    have hstep : countCS (setStatus files i st) = countCS files + 1 := by
      rw [countCS_setStatus_of_not files i st f hget hncs]
      simp [hst]
    have hpw' : List.Pairwise (· ≠ ·) rest := (List.pairwise_cons.mp hpw).2
    have hne : ∀ j ∈ rest, i ≠ j := (List.pairwise_cons.mp hpw).1
    have hok' : ∀ j ∈ rest, ∃ g, (setStatus files i st).get? j = some g ∧ ¬ isCS g.status := by
      intro j hj
      obtain ⟨g, hg, hgncs⟩ := hok j (by simp [hj])
      exact ⟨g, by rw [get?_setStatus_ne files i j st (fun hc => hne j hj hc.symm)]; exact hg, hgncs⟩
    have : setStatuses files (i :: rest) st = setStatuses (setStatus files i st) rest st := rfl
    rw [this, ih (setStatus files i st) hpw' hok', hstep]
    simp [Nat.add_assoc, Nat.add_comm 1 rest.length]

theorem countCS_setFailedAll (e : Str) :
    ∀ (idxs : List Nat) (files : List FileEntry),
      (∀ i ∈ idxs, ∃ f, files.get? i = some f ∧ ¬ isCS f.status) →
      countCS (setFailedAll files idxs e) = countCS files := by
  intro idxs
  induction idxs with
  | nil => intro files _; simp [setFailedAll]
  | cons i rest ih =>
    intro files hok
    obtain ⟨f, hget, hncs⟩ := hok i (by simp)
    have hok' : ∀ j ∈ rest, ∃ g, (setFailedOne files i e).get? j = some g ∧ ¬ isCS g.status := by
      intro j hj
      by_cases hji : j = i
      · subst hji
        refine ⟨{ f with status := FAILED, error := some e }, ?_, ?_⟩
        · rw [get?_setFailedOne_self, hget]; rfl
        · simp [isCS]
      · obtain ⟨g, hg, hgncs⟩ := hok j (by simp [hj])
        exact ⟨g, by rw [get?_setFailedOne_ne files i j e hji]; exact hg, hgncs⟩
    have : setFailedAll files (i :: rest) e = setFailedAll (setFailedOne files i e) rest e := rfl
    rw [this, ih (setFailedOne files i e) hok',
      countCS_setFailedOne_of_not files i e f hget hncs]

theorem get?_setFailedAll_not_mem (e : Str) :
    ∀ (idxs : List Nat) (files : List FileEntry) (j : Nat), j ∉ idxs →
      (setFailedAll files idxs e).get? j = files.get? j := by
  intro idxs
  induction idxs with
  | nil => intro files j _; rfl
  | cons i rest ih =>
    intro files j hj
    have hji : j ≠ i := fun hc => hj (by simp [hc])
    have hjr : j ∉ rest := fun hc => hj (by simp [hc])
    have : setFailedAll files (i :: rest) e = setFailedAll (setFailedOne files i e) rest e := rfl
    rw [this, ih _ j hjr, get?_setFailedOne_ne files i j e hji]

theorem get?_setFailedAll_mem (e : Str) :
    ∀ (idxs : List Nat) (files : List FileEntry) (j : Nat),
      List.Pairwise (· ≠ ·) idxs → j ∈ idxs →
      (setFailedAll files idxs e).get? j =
        (files.get? j).map (fun f => { f with status := FAILED, error := some e }) := by
  intro idxs
  induction idxs with
  | nil => intro files j _ hj; simp at hj
  | cons i rest ih =>
    intro files j hpw hj
    have hpwc := List.pairwise_cons.mp hpw
    have heq : setFailedAll files (i :: rest) e = setFailedAll (setFailedOne files i e) rest e := rfl
    rcases List.mem_cons.mp hj with rfl | hjr
    · rw [heq, get?_setFailedAll_not_mem e rest _ j
        (fun hc => (hpwc.1 j hc) rfl), get?_setFailedOne_self]
    · rw [heq, ih _ j hpwc.2 hjr, get?_setFailedOne_ne files i j e
        (fun hc => (hpwc.1 j hjr) hc.symm)]

theorem get?_setStatuses_not_mem (st : ProcessingStatus) :
    ∀ (idxs : List Nat) (files : List FileEntry) (j : Nat), j ∉ idxs →
      (setStatuses files idxs st).get? j = files.get? j := by
  intro idxs
  induction idxs with
  | nil => intro files j _; rfl
  | cons i rest ih =>
    intro files j hj
    have hji : j ≠ i := fun hc => hj (by simp [hc])
    have hjr : j ∉ rest := fun hc => hj (by simp [hc])
    have : setStatuses files (i :: rest) st = setStatuses (setStatus files i st) rest st := rfl
    rw [this, ih _ j hjr, get?_setStatus_ne files i j st hji]

theorem get?_setStatuses_mem (st : ProcessingStatus) :
    ∀ (idxs : List Nat) (files : List FileEntry) (j : Nat),
      List.Pairwise (· ≠ ·) idxs → j ∈ idxs →
      (setStatuses files idxs st).get? j =
        (files.get? j).map (fun f => { f with status := st }) := by
  intro idxs
  induction idxs with
  | nil => intro files j _ hj; simp at hj
  | cons i rest ih =>
    intro files j hpw hj
    have hpwc := List.pairwise_cons.mp hpw
    have heq : setStatuses files (i :: rest) st = setStatuses (setStatus files i st) rest st := rfl
    rcases List.mem_cons.mp hj with rfl | hjr
    · rw [heq, get?_setStatuses_not_mem st rest _ j
        (fun hc => (hpwc.1 j hc) rfl), get?_setStatus_self]
    · rw [heq, ih _ j hpwc.2 hjr, get?_setStatus_ne files i j st
        (fun hc => (hpwc.1 j hjr) hc.symm)]


/-! ## Soundness of the interactive batch planner -/

def batchBytes (files : List FileEntry) (idxs : List Nat) : Nat :=
  (idxs.map (fun i => ((files.get? i).getD default).size)).sum

def PlanSound (files : List FileEntry) (sl idx : Nat) (batch : List Nat)
    (O : List Nat × Nat × Option Str) : Prop :=
  idx ≤ O.2.1 ∧
  (∀ i ∈ O.1, i ∈ batch ∨ idx ≤ i) ∧
  (∀ i ∈ O.1, ∃ f, files.get? i = some f ∧ ¬ isCS f.status) ∧
  List.Pairwise (· < ·) O.1 ∧
  (O.1 = [] ↔ O.2.2 = none) ∧
  (∀ d, O.2.2 = some d → ∀ i ∈ O.1, ∀ f, files.get? i = some f → dirOf f.path = d) ∧
  (2 ≤ O.1.length → batchBytes files O.1 ≤ sl)

theorem PlanSound_step_skip {files : List FileEntry} {sl idx : Nat} {batch : List Nat}
    {O : List Nat × Nat × Option Str} (h : PlanSound files sl (idx + 1) batch O) :
    PlanSound files sl idx batch O := by
  obtain ⟨h1, h2, h3, h4, h5, h6, h7⟩ := h
  exact ⟨Nat.le_trans (Nat.le_succ idx) h1,
    fun i hi => (h2 i hi).imp id (fun hle => Nat.le_trans (Nat.le_succ idx) hle),
    h3, h4, h5, h6, h7⟩

theorem PlanSound_step_admit {files : List FileEntry} {sl idx : Nat} {batch : List Nat}
    {O : List Nat × Nat × Option Str}
    (h : PlanSound files sl (idx + 1) (batch ++ [idx]) O) :
    PlanSound files sl idx batch O := by
  obtain ⟨h1, h2, h3, h4, h5, h6, h7⟩ := h
  refine ⟨Nat.le_trans (Nat.le_succ idx) h1, fun i hi => ?_, h3, h4, h5, h6, h7⟩
  rcases h2 i hi with hmem | hle
  · rcases List.mem_append.mp hmem with hb | hs
    · exact Or.inl hb
    · right
      have : i = idx := by simpa using hs
      omega
  · right; omega

theorem planBatchAux_sound (cl sl mf : Nat) (files : List FileEntry) :
    ∀ (rest : List FileEntry) (idx : Nat) (batch : List Nat) (size : Nat) (dir : Option Str),
      rest = files.drop idx →
      (∀ i ∈ batch, i < idx) →
      (∀ i ∈ batch, ∃ f, files.get? i = some f ∧ ¬ isCS f.status) →
      List.Pairwise (· < ·) batch →
      (batch = [] ↔ dir = none) →
      (∀ d, dir = some d → ∀ i ∈ batch, ∀ f, files.get? i = some f → dirOf f.path = d) →
      size = batchBytes files batch →
      (2 ≤ batch.length → size ≤ sl) →
      PlanSound files sl idx batch (planBatchAux cl sl mf rest idx batch size dir) := by
  intro rest
  induction rest with
  | nil =>
    intro idx batch size dir hdrop h1 h2 h3 h4 h5 h6 h7
    simp only [planBatchAux]
    exact ⟨Nat.le_refl _, fun i hi => Or.inl hi, h2, h3, h4, h5,
      fun hlen => by rw [← h6]; exact h7 hlen⟩
  | cons f rs ih =>
    intro idx batch size dir hdrop h1 h2 h3 h4 h5 h6 h7
    obtain ⟨hlt, hgetFin, hdrop'⟩ := drop_cons_get files idx f rs hdrop.symm
    have hget : files.get? idx = some f := by
      rw [List.get?_eq_get hlt, hgetFin]
    simp only [planBatchAux]
    by_cases hcl : cl ≤ batch.length
    · simp only [if_pos hcl]
      exact ⟨Nat.le_refl _, fun i hi => Or.inl hi, h2, h3, h4, h5,
        fun hlen => by rw [← h6]; exact h7 hlen⟩
    · simp only [if_neg hcl]
      by_cases hterm : f.status = SKIPPED ∨ f.status = COMPLETED
      · simp only [if_pos hterm]
        exact PlanSound_step_skip (ih (idx + 1) batch size dir hdrop'.symm
          (fun i hi => Nat.lt_trans (h1 i hi) (Nat.lt_succ_self idx)) h2 h3 h4 h5 h6 h7)
      · simp only [if_neg hterm]
        have hncs : ¬ isCS f.status := by
          intro hc
          rcases hc with hc | hc
          · exact hterm (Or.inr hc)
          · exact hterm (Or.inl hc)
        by_cases hbrk : dir ≠ none ∧ dir ≠ some (dirOf f.path) ∧ batch ≠ []
        · simp only [if_pos hbrk]
          exact ⟨Nat.le_refl _, fun i hi => Or.inl hi, h2, h3, h4, h5,
            fun hlen => by rw [← h6]; exact h7 hlen⟩
        · simp only [if_neg hbrk]
          -- helper facts for the three remaining branches
          have hsingle : PlanSound files sl idx batch
              (if batch = [] then batch ++ [idx] else batch, idx,
                if dir = none then some (dirOf f.path) else dir) := by
            by_cases hbe : batch = []
            · subst hbe
              have hdirn : dir = none := h4.mp rfl
              subst hdirn
              simp only [if_pos rfl, List.nil_append]
              refine ⟨Nat.le_refl _, ?_, ?_, ?_, ?_, ?_, ?_⟩
              · intro i hi
                have : i = idx := by simpa using hi
                subst this; right; exact Nat.le_refl _
              · intro i hi
                have : i = idx := by simpa using hi
                subst this; exact ⟨f, hget, hncs⟩
              · simp
              · simp
              · intro d hd i hi g hg
                have hi' : i = idx := by simpa using hi
                subst hi'
                rw [hget] at hg
                injection hg with hg; subst hg
                exact Option.some.inj hd
              · intro hlen; simp at hlen
            · have hdir : dir ≠ none := fun hc => hbe (h4.mpr hc)
              have hdir' : (if dir = none then some (dirOf f.path) else dir) = dir := by
                simp [hdir]
              simp only [if_neg hbe, hdir']
              exact ⟨Nat.le_refl _, fun i hi => Or.inl hi, h2, h3, h4, h5,
                fun hlen => by rw [← h6]; exact h7 hlen⟩
          by_cases hmf : mf < f.size
          · simpa only [if_pos hmf] using hsingle
          · simp only [if_neg hmf]
            by_cases hsl : sl < size + f.size
            · simpa only [if_pos hsl] using hsingle
            · simp only [if_neg hsl]
              -- admit branch: recurse
              apply PlanSound_step_admit
              apply ih (idx + 1) (batch ++ [idx]) (size + f.size)
                (if dir = none then some (dirOf f.path) else dir) hdrop'.symm
              · intro i hi
                rcases List.mem_append.mp hi with hb | hs
                · exact Nat.lt_trans (h1 i hb) (Nat.lt_succ_self idx)
                · have : i = idx := by simpa using hs
                  omega
              · intro i hi
                rcases List.mem_append.mp hi with hb | hs
                · exact h2 i hb
                · have : i = idx := by simpa using hs
                  subst this; exact ⟨f, hget, hncs⟩
              · rw [List.pairwise_append]
                exact ⟨h3, by simp, fun a ha b hb => by
                  have : b = idx := by simpa using hb
                  subst this; exact h1 a ha⟩
              · constructor
                · intro hc; exact absurd hc (by simp)
                · intro hc
                  exfalso
                  by_cases hdn : dir = none
                  · rw [if_pos hdn] at hc; exact Option.noConfusion hc
                  · rw [if_neg hdn] at hc; exact hdn hc
              · intro d hd i hi g hg
                rcases List.mem_append.mp hi with hb | hs
                · by_cases hdn : dir = none
                  · exact absurd (h4.mpr hdn) (List.ne_nil_of_mem hb)
                  · rw [if_neg hdn] at hd
                    exact h5 d hd i hb g hg
                · have : i = idx := by simpa using hs
                  subst this
                  rw [hget] at hg
                  injection hg with hg; subst hg
                  by_cases hdn : dir = none
                  · rw [if_pos hdn] at hd
                    exact Option.some.inj hd
                  · rw [if_neg hdn] at hd
                    have hbe : batch ≠ [] := by
                      intro hc; exact hdn (h4.mp hc)
                    have hde : dir = some (dirOf f.path) := by
                      by_contra hc
                      exact hbrk ⟨hdn, hc, hbe⟩
                    rw [hde] at hd
                    exact Option.some.inj hd
              · have hget2 : files[idx]? = some f := by
                  rw [← List.get?_eq_getElem?]; exact hget
                rw [h6]
                simp [batchBytes, hget2]
              · intro _
                omega

theorem planBatch_sound (cl sl mf : Nat) (files : List FileEntry) (cursor : Nat) :
    PlanSound files sl cursor [] (planBatch cl sl mf files cursor) := by
  apply planBatchAux_sound cl sl mf files (files.drop cursor) cursor [] 0 none rfl
  · intro i hi; simp at hi
  · intro i hi; simp at hi
  · simp
  · exact ⟨fun _ => rfl, fun _ => rfl⟩
  · intro d hd; exact absurd hd (by simp)
  · simp [batchBytes]
  · intro h; simp at h

/-! ## Soundness of the CLI batch planner -/

/-- Cumulative byte size of a CLI batch. -/
def cliBatchBytes (batch : List CliFile) : Nat := (batch.map (·.size)).sum

theorem cliPlanAux_dir_stable (cl sl mf : Nat) :
    ∀ (rest : List CliFile) (i : Nat) (batch : List CliFile) (size : Nat) (d : Str)
      (skipped : List Str),
      (cliPlanAux cl sl mf rest i batch size (some d) skipped).2.2.1 = some d := by
  intro rest
  induction rest with
  | nil => intro i batch size d skipped; rfl
  | cons f rs ih =>
    intro i batch size d skipped
    simp only [cliPlanAux]
    by_cases hcl : cl ≤ batch.length
    · simp only [if_pos hcl]
    · simp only [if_neg hcl]
      by_cases hbrk : some d ≠ none ∧ some d ≠ some (dirname f.path) ∧ batch ≠ []
      · simp only [if_pos hbrk]
      · simp only [if_neg hbrk]
        have hd : (if (some d : Option Str) = none then some (dirname f.path) else some d)
            = some d := by simp
        by_cases hmf : mf < f.size
        · simp only [if_pos hmf, hd]; exact ih _ _ _ _ _
        · simp only [if_neg hmf]
          by_cases hsl : sl < size + f.size ∧ batch ≠ []
          · simp only [if_pos hsl, hd]
          · simp only [if_neg hsl, hd]; exact ih _ _ _ _ _

/-- The CLI planner's batch directory is fixed by the first file it examines —
whether or not that file is admitted into the batch. -/
theorem cliPlanAux_dir_first (cl sl mf : Nat) (f : CliFile) (rs : List CliFile)
    (i size : Nat) (skipped : List Str) (hcl : 0 < cl) :
    (cliPlanAux cl sl mf (f :: rs) i [] size none skipped).2.2.1 = some (dirname f.path) := by
  simp only [cliPlanAux]
  have hcl' : ¬ cl ≤ ([] : List CliFile).length := by simpa using Nat.not_le.mpr hcl
  simp only [if_neg hcl']
  have hbrk : ¬ ((none : Option Str) ≠ none ∧ (none : Option Str) ≠ some (dirname f.path)
      ∧ ([] : List CliFile) ≠ []) := by simp
  simp only [if_neg hbrk]
  have hd : (if (none : Option Str) = none then some (dirname f.path) else none)
      = some (dirname f.path) := by simp
  by_cases hmf : mf < f.size
  · simp only [if_pos hmf, hd]
    exact cliPlanAux_dir_stable cl sl mf rs (i + 1) [] size (dirname f.path) _
  · simp only [if_neg hmf]
    by_cases hsl : sl < size + f.size ∧ ([] : List CliFile) ≠ []
    · exact absurd hsl (by simp)
    · simp only [if_neg hsl, hd]
      exact cliPlanAux_dir_stable cl sl mf rs (i + 1) _ _ (dirname f.path) _

/-- Size soundness of the CLI planner: a batch of two or more files respects
the byte cap. -/
theorem cliPlanAux_size_sound (cl sl mf : Nat) :
    ∀ (rest : List CliFile) (i : Nat) (batch : List CliFile) (size : Nat)
      (dir : Option Str) (skipped : List Str),
      size = cliBatchBytes batch →
      (2 ≤ batch.length → size ≤ sl) →
      (2 ≤ (cliPlanAux cl sl mf rest i batch size dir skipped).1.length →
        cliBatchBytes (cliPlanAux cl sl mf rest i batch size dir skipped).1 ≤ sl) := by
  intro rest
  induction rest with
  | nil =>
    intro i batch size dir skipped hsz hlim
    simp only [cliPlanAux]
    intro hlen
    rw [← hsz]; exact hlim hlen
  | cons f rs ih =>
    intro i batch size dir skipped hsz hlim
    simp only [cliPlanAux]
    by_cases hcl : cl ≤ batch.length
    · simp only [if_pos hcl]
      intro hlen; rw [← hsz]; exact hlim hlen
    · simp only [if_neg hcl]
      by_cases hbrk : dir ≠ none ∧ dir ≠ some (dirname f.path) ∧ batch ≠ []
      · simp only [if_pos hbrk]
        intro hlen; rw [← hsz]; exact hlim hlen
      · simp only [if_neg hbrk]
        by_cases hmf : mf < f.size
        · simp only [if_pos hmf]
          exact ih _ _ _ _ _ hsz hlim
        · simp only [if_neg hmf]
          by_cases hsl : sl < size + f.size ∧ batch ≠ []
          · simp only [if_pos hsl]
            intro hlen; rw [← hsz]; exact hlim hlen
          · simp only [if_neg hsl]
            apply ih _ _ _ _ _
            · simp [cliBatchBytes, hsz]
            · intro hlen
              by_cases hbe : batch = []
              · subst hbe; simp at hlen
              · have hns : ¬ sl < size + f.size := fun hc => hsl ⟨hc, hbe⟩
                omega

/-! ## Run-loop step lemmas -/

theorem step_preserves_RunInv (bc bs : Nat)
    (gen : Str → Option Str → List (Str × Str) → Except Str C4UpdateResult)
    (s : ProjectState) (h : RunInv s) :
    RunInv (processNextFileStep bc bs gen s).1 := by
  unfold processNextFileStep
  by_cases hip : s.isProcessing = false
  · simp only [if_pos hip]; exact h
  · simp only [if_neg hip]
    by_cases hdone : s.files.length ≤ s.currentFileIndex
    · simp only [if_pos hdone]; exact h
    · simp only [if_neg hdone]
      have hps := planBatch_sound (orDefault bc DEFAULT_BATCH_COUNT)
        (orDefault bs DEFAULT_BATCH_SIZE_KB * 1024) MAX_FILE_SIZE_BYTES
        s.files s.currentFileIndex
      set P := planBatch (orDefault bc DEFAULT_BATCH_COUNT)
        (orDefault bs DEFAULT_BATCH_SIZE_KB * 1024) MAX_FILE_SIZE_BYTES
        s.files s.currentFileIndex with hPdef
      obtain ⟨hc1, hc2, hc3, hc4, hc5, hc6, hc7⟩ := hps
      by_cases hbe : P.1 = []
      · simp only [if_pos hbe]; exact h
      · simp only [if_neg hbe]
        have hpw : List.Pairwise (· ≠ ·) P.1 :=
          hc4.imp (fun hab => Nat.ne_of_lt hab)
        by_cases hskip : skipOnlyBatch s.files P.1 = true
        · simp only [if_pos hskip]
          match hM : P.1 with
          | [i0] =>
            obtain ⟨f, hget, hncs⟩ := hc3 i0 (by rw [hM]; simp)
            have hcount : countCS (setStatus s.files i0 SKIPPED) = countCS s.files + 1 := by
              rw [countCS_setStatus_of_not s.files i0 SKIPPED f hget hncs]
              simp [isCS]
            show RunInv (skipUpdate s ([i0].headI))
            unfold RunInv skipUpdate
            simp only [List.headI]
            rw [hcount]
            unfold RunInv at h
            omega
          | [] => rw [hM] at hbe; exact absurd rfl hbe
          | i0 :: i1 :: rest => rw [hM] at hskip; simp [skipOnlyBatch] at hskip
        · simp only [if_neg hskip]
          cases hg : gen ((s.diagrams OVERVIEW_DIAGRAM_KEY).getD [])
            (match s.diagrams (resolvedBatchKey P.2.2) with
              | none => none
              | some v => if v = [] then none else some v)
            ((P.1.map (fun i => s.files.getD i default)).map (fun f => (f.path, f.content))) with
          | ok result =>
            simp only [hg]
            show RunInv (successUpdate s P.1 (resolvedBatchKey P.2.2) result)
            unfold RunInv successUpdate
            simp only
            rw [countCS_setStatuses_CS COMPLETED (Or.inl rfl) P.1 s.files hpw hc3]
            unfold RunInv at h
            omega
          | error e =>
            simp only [hg]
            show RunInv (failureUpdate s P.1 e)
            unfold RunInv failureUpdate
            simp only
            rw [countCS_setFailedAll e P.1 s.files hc3]
            exact h

theorem step_cursor_mono (bc bs : Nat)
    (gen : Str → Option Str → List (Str × Str) → Except Str C4UpdateResult)
    (s : ProjectState) :
    s.currentFileIndex ≤ (processNextFileStep bc bs gen s).1.currentFileIndex := by
  unfold processNextFileStep
  by_cases hip : s.isProcessing = false
  · simp only [if_pos hip]
    exact Nat.le_refl _
  · simp only [if_neg hip]
    by_cases hdone : s.files.length ≤ s.currentFileIndex
    · simp only [if_pos hdone]
      exact Nat.le_refl _
    · simp only [if_neg hdone]
      have hps := planBatch_sound (orDefault bc DEFAULT_BATCH_COUNT)
        (orDefault bs DEFAULT_BATCH_SIZE_KB * 1024) MAX_FILE_SIZE_BYTES
        s.files s.currentFileIndex
      set P := planBatch (orDefault bc DEFAULT_BATCH_COUNT)
        (orDefault bs DEFAULT_BATCH_SIZE_KB * 1024) MAX_FILE_SIZE_BYTES
        s.files s.currentFileIndex with hPdef
      obtain ⟨hc1, hc2, hc3, hc4, hc5, hc6, hc7⟩ := hps
      by_cases hbe : P.1 = []
      · simp only [if_pos hbe]
        exact hc1
      · simp only [if_neg hbe]
        by_cases hskip : skipOnlyBatch s.files P.1 = true
        · simp only [if_pos hskip]
          match hM : P.1 with
          | [i0] =>
            have hmem : i0 ∈ P.1 := by rw [hM]; simp
            have : s.currentFileIndex ≤ i0 := by
              rcases hc2 i0 hmem with hin | hle
              · simp at hin
              · exact hle
            show s.currentFileIndex ≤ (skipUpdate s ([i0].headI)).currentFileIndex
            unfold skipUpdate
            simp only [List.headI]
            omega
          | [] => rw [hM] at hbe; exact absurd rfl hbe
          | i0 :: i1 :: rest => rw [hM] at hskip; simp [skipOnlyBatch] at hskip
        · simp only [if_neg hskip]
          cases hg : gen ((s.diagrams OVERVIEW_DIAGRAM_KEY).getD [])
            (match s.diagrams (resolvedBatchKey P.2.2) with
              | none => none
              | some v => if v = [] then none else some v)
            ((P.1.map (fun i => s.files.getD i default)).map (fun f => (f.path, f.content))) with
          | ok result =>
            simp only [hg]
            show s.currentFileIndex ≤
              (successUpdate s P.1 (resolvedBatchKey P.2.2) result).currentFileIndex
            unfold successUpdate
            simp only
            match hM : P.1 with
            | [] => exact absurd hM hbe
            | i0 :: rest =>
              have hmem : i0 ∈ P.1 := by rw [hM]; simp
              have h1 : s.currentFileIndex ≤ i0 := by
                rcases hc2 i0 hmem with hin | hle
                · simp at hin
                · exact hle
              have h2 : i0 ≤ maxList P.1 := mem_le_maxList P.1 i0 hmem
              rw [hM] at h2
              omega
          | error e =>
            simp only [hg]
            show s.currentFileIndex ≤ (failureUpdate s P.1 e).currentFileIndex
            unfold failureUpdate
            exact Nat.le_refl _

theorem step_failure_eq (bc bs : Nat) (e : Str) (s : ProjectState)
    (hip : s.isProcessing = true)
    (hdone : s.currentFileIndex < s.files.length)
    (hbe : (planBatch (orDefault bc DEFAULT_BATCH_COUNT)
        (orDefault bs DEFAULT_BATCH_SIZE_KB * 1024) MAX_FILE_SIZE_BYTES
        s.files s.currentFileIndex).1 ≠ [])
    (hskip : skipOnlyBatch s.files (planBatch (orDefault bc DEFAULT_BATCH_COUNT)
        (orDefault bs DEFAULT_BATCH_SIZE_KB * 1024) MAX_FILE_SIZE_BYTES
        s.files s.currentFileIndex).1 = false) :
    processNextFileStep bc bs (fun _ _ _ => Except.error e) s =
      (failureUpdate s (planBatch (orDefault bc DEFAULT_BATCH_COUNT)
        (orDefault bs DEFAULT_BATCH_SIZE_KB * 1024) MAX_FILE_SIZE_BYTES
        s.files s.currentFileIndex).1 e, false) := by
  unfold processNextFileStep
  simp [hip, Nat.not_le.mpr hdone, hbe, hskip]

theorem mergeDiagrams_overview_isSome (m : DiagramSet) (ov k md : Str) :
    (mergeDiagrams m ov k md OVERVIEW_DIAGRAM_KEY).isSome := by
  unfold mergeDiagrams
  by_cases h : OVERVIEW_DIAGRAM_KEY = k <;> simp [h]

theorem step_preserves_overview (bc bs : Nat)
    (gen : Str → Option Str → List (Str × Str) → Except Str C4UpdateResult)
    (s : ProjectState) (h : (s.diagrams OVERVIEW_DIAGRAM_KEY).isSome) :
    ((processNextFileStep bc bs gen s).1.diagrams OVERVIEW_DIAGRAM_KEY).isSome := by
  unfold processNextFileStep
  by_cases hip : s.isProcessing = false
  · simp only [if_pos hip]; exact h
  · simp only [if_neg hip]
    by_cases hdone : s.files.length ≤ s.currentFileIndex
    · simp only [if_pos hdone]; exact h
    · simp only [if_neg hdone]
      set P := planBatch (orDefault bc DEFAULT_BATCH_COUNT)
        (orDefault bs DEFAULT_BATCH_SIZE_KB * 1024) MAX_FILE_SIZE_BYTES
        s.files s.currentFileIndex with hPdef
      by_cases hbe : P.1 = []
      · simp only [if_pos hbe]; exact h
      · simp only [if_neg hbe]
        by_cases hskip : skipOnlyBatch s.files P.1 = true
        · simp only [if_pos hskip]; exact h
        · simp only [if_neg hskip]
          cases hg : gen ((s.diagrams OVERVIEW_DIAGRAM_KEY).getD [])
            (match s.diagrams (resolvedBatchKey P.2.2) with
              | none => none
              | some v => if v = [] then none else some v)
            ((P.1.map (fun i => s.files.getD i default)).map (fun f => (f.path, f.content))) with
          | ok result =>
            simp only [hg]
            show ((successUpdate s P.1 (resolvedBatchKey P.2.2) result).diagrams
              OVERVIEW_DIAGRAM_KEY).isSome
            unfold successUpdate
            exact mergeDiagrams_overview_isSome _ _ _ _
          | error e =>
            simp only [hg]
            exact h

/-! ## Retry lemmas -/

theorem countCS_set_both_not (files : List FileEntry) (i : Nat) (f g : FileEntry)
    (hget : files.get? i = some f) (hf : ¬ isCS f.status) (hg : ¬ isCS g.status) :
    countCS (files.set i g) = countCS files := by
  induction files generalizing i with
  | nil => simp at hget
  | cons a fs ih =>
    cases i with
    | zero =>
      simp only [List.get?] at hget
      injection hget with ha
      subst ha
      simp only [List.set, countCS_cons]
      simp [hf, hg]
    | succ n =>
      simp only [List.get?] at hget
      simp only [List.set, countCS_cons, ih n hget]

theorem handleRetry_spec (s : ProjectState) (i : Nat) (f : FileEntry)
    (hget : s.files.get? i = some f) :
    (handleRetry s i).files.get? i = some { f with status := PENDING, error := none } ∧
    (∀ j, j ≠ i → (handleRetry s i).files.get? j = s.files.get? j) ∧
    (handleRetry s i).currentFileIndex = min s.currentFileIndex i ∧
    (handleRetry s i).processedCount = s.processedCount - 1 ∧
    (handleRetry s i).diagrams = s.diagrams := by
  have hlt : i < s.files.length := by
    by_contra hc
    rw [List.get?_eq_none.mpr (Nat.le_of_not_lt hc)] at hget
    exact Option.noConfusion hget
  unfold handleRetry
  rw [hget]
  refine ⟨?_, ?_, rfl, rfl, rfl⟩
  · simp only
    rw [List.get?_eq_getElem?, List.getElem?_set_eq_of_lt _ hlt]
  · intro j hj
    simp only
    rw [List.get?_eq_getElem?, List.get?_eq_getElem?,
      List.getElem?_set_ne (fun hc => hj hc.symm)]

theorem handleRetry_countCS (s : ProjectState) (i : Nat) (f : FileEntry)
    (hget : s.files.get? i = some f) (hfail : f.status = FAILED) :
    countCS (handleRetry s i).files = countCS s.files ∧
    (handleRetry s i).processedCount = s.processedCount - 1 := by
  unfold handleRetry
  rw [hget]
  refine ⟨?_, rfl⟩
  simp only
  exact countCS_set_both_not s.files i f _ hget
    (by rw [hfail]; simp [isCS]) (by simp [isCS])

/-! ## Snapshot and restore lemmas -/

theorem autoSave_mem_iff (s : ProjectState) (p : Str) :
    p ∈ (autoSaveSnapshot s).filePathsProcessed ↔
      ∃ f ∈ s.files, f.path = p ∧ isCS f.status := by
  unfold autoSaveSnapshot
  simp only [List.mem_map, List.mem_filter]
  constructor
  · rintro ⟨f, ⟨hmem, hcs⟩, hp⟩
    exact ⟨f, hmem, hp, of_decide_eq_true hcs⟩
  · rintro ⟨f, hmem, hp, hcs⟩
    exact ⟨f, ⟨hmem, decide_eq_true hcs⟩, hp⟩

theorem manualSave_paths (s : ProjectState) :
    (manualSaveSnapshot s).filePathsProcessed =
      (s.files.take s.currentFileIndex).map (·.path) := rfl

theorem manualSave_mem_iff_of_aligned (s : ProjectState)
    (halign : ∀ i (h : i < s.files.length),
      (i < s.currentFileIndex ↔ isCS (s.files.get ⟨i, h⟩).status)) (p : Str) :
    p ∈ (manualSaveSnapshot s).filePathsProcessed ↔
      ∃ f ∈ s.files, f.path = p ∧ isCS f.status := by
  rw [manualSave_paths]
  constructor
  · intro hp
    obtain ⟨f, hmem, hfp⟩ := List.mem_map.mp hp
    obtain ⟨n, hn⟩ := List.get_of_mem hmem
    have hlen : (s.files.take s.currentFileIndex).length =
        min s.currentFileIndex s.files.length := List.length_take _ _
    have hn2 : n.1 < s.files.length := by
      have := n.2
      omega
    have hgetfull : s.files.get ⟨n.1, hn2⟩ = f := by
      rw [← hn]
      exact (List.get_take' s.files (i := ⟨n.1, _⟩)).symm
    refine ⟨f, ?_, hfp, ?_⟩
    · rw [← hgetfull]; exact List.get_mem _ _ _
    · rw [← hgetfull]
      exact (halign n.1 hn2).mp (by have := n.2; omega)
  · rintro ⟨f, hmem, hfp, hcs⟩
    obtain ⟨n, hn⟩ := List.get_of_mem hmem
    have hcur : n.1 < s.currentFileIndex := (halign n.1 n.2).mpr (by rw [hn]; exact hcs)
    apply List.mem_map.mpr
    refine ⟨f, ?_, hfp⟩
    have hlen : n.1 < (s.files.take s.currentFileIndex).length := by
      rw [List.length_take]
      exact Nat.lt_min.mpr ⟨hcur, n.2⟩
    have : (s.files.take s.currentFileIndex).get ⟨n.1, hlen⟩ = f := by
      rw [List.get_take' s.files]
      simpa using hn
    rw [← this]
    exact List.get_mem _ _ _

theorem handleLoadState_member (s : ProjectState) (json : SavedState) (i : Nat)
    (f : FileEntry) (hget : s.files.get? i = some f)
    (hmem : f.path ∈ json.filePathsProcessed) :
    (handleLoadState s json).files.get? i = some { f with status := COMPLETED } := by
  have hne : 0 < s.files.length := by
    rcases Nat.lt_or_ge i s.files.length with h | h
    · omega
    · rw [List.get?_eq_none.mpr h] at hget; exact Option.noConfusion hget
  unfold handleLoadState
  simp only [if_pos hne]
  rw [List.get?_eq_getElem?, List.getElem?_map, ← List.get?_eq_getElem?, hget]
  simp [hmem]

theorem handleLoadState_not_member (s : ProjectState) (json : SavedState) (i : Nat)
    (f : FileEntry) (hget : s.files.get? i = some f)
    (hmem : f.path ∉ json.filePathsProcessed) :
    (handleLoadState s json).files.get? i = some f := by
  have hne : 0 < s.files.length := by
    rcases Nat.lt_or_ge i s.files.length with h | h
    · omega
    · rw [List.get?_eq_none.mpr h] at hget; exact Option.noConfusion hget
  unfold handleLoadState
  simp only [if_pos hne]
  rw [List.get?_eq_getElem?, List.getElem?_map, ← List.get?_eq_getElem?, hget]
  simp [hmem]

theorem handleLoadState_scalars (s : ProjectState) (json : SavedState) :
    (handleLoadState s json).diagrams = json.diagrams ∧
    (handleLoadState s json).processedCount = json.processedCount ∧
    (handleLoadState s json).currentFileIndex = json.currentFileIndex := by
  unfold handleLoadState
  exact ⟨rfl, rfl, rfl⟩

theorem skipped_roundtrip (s : ProjectState) (i : Nat) (f : FileEntry)
    (hget : s.files.get? i = some f) (hskip : f.status = SKIPPED) :
    (handleLoadState s (autoSaveSnapshot s)).files.get? i =
      some { f with status := COMPLETED } := by
  apply handleLoadState_member s _ i f hget
  exact (autoSave_mem_iff s f.path).mpr ⟨f, List.get?_mem hget, rfl, Or.inr hskip⟩

theorem countCS_toFileEntries (entries0 : List RawFile) :
    countCS (toFileEntries entries0) = 0 := by
  induction entries0 with
  | nil => rfl
  | cons r rest ih =>
    simp only [toFileEntries, List.map_cons, countCS_cons]
    simp only [toFileEntries] at ih
    rw [ih]
    simp [isCS]

theorem countCS_markCompleted (paths : List Str) :
    ∀ (entries : List FileEntry), (∀ f ∈ entries, ¬ isCS f.status) →
      countCS (entries.map (fun f =>
          if f.path ∈ paths then { f with status := COMPLETED } else f)) =
        (entries.filter (fun f => decide (f.path ∈ paths))).length := by
  intro entries
  induction entries with
  | nil => intro _; rfl
  | cons f rest ih =>
    intro hall
    have ihr := ih (fun g hg => hall g (by simp [hg]))
    by_cases hmem : f.path ∈ paths
    · simp only [List.map_cons, if_pos hmem, countCS_cons, List.filter_cons,
        decide_eq_true hmem]
      rw [ihr]
      have hcs : isCS (COMPLETED : ProcessingStatus) := Or.inl rfl
      simp [hcs, Nat.add_comm]
    · have hncs : ¬ isCS f.status := hall f (by simp)
      simp only [List.map_cons, if_neg hmem, countCS_cons, List.filter_cons]
      rw [ihr]
      simp [hncs, hmem]

theorem handleFilesSelected_RunInv_none (prev : ProjectState) (entries0 : List RawFile) :
    RunInv (handleFilesSelected prev entries0 none) := by
  unfold handleFilesSelected RunInv
  simp [countCS_toFileEntries]

theorem handleFilesSelected_RunInv_some (prev : ProjectState) (entries0 : List RawFile)
    (sv : SavedState)
    (hcount : sv.processedCount = ((toFileEntries entries0).filter
      (fun f => decide (f.path ∈ sv.filePathsProcessed))).length) :
    RunInv (handleFilesSelected prev entries0 (some sv)) := by
  unfold handleFilesSelected RunInv
  by_cases hname : sv.projectName = projectNameOf (toFileEntries entries0)
  · simp only [if_pos hname]
    have hall : ∀ f ∈ toFileEntries entries0, ¬ isCS f.status := by
      intro f hf
      obtain ⟨r, _, hr⟩ := List.mem_map.mp hf
      rw [← hr]
      simp [isCS]
    rw [countCS_markCompleted sv.filePathsProcessed (toFileEntries entries0) hall]
    exact hcount
  · simp only [if_neg hname]
    simp [countCS_toFileEntries]

theorem handleFilesSelected_member (prev : ProjectState) (entries0 : List RawFile)
    (sv : SavedState) (i : Nat) (r : FileEntry)
    (hname : sv.projectName = projectNameOf (toFileEntries entries0))
    (hget : (toFileEntries entries0).get? i = some r)
    (hmem : r.path ∈ sv.filePathsProcessed) :
    (handleFilesSelected prev entries0 (some sv)).files.get? i =
      some { r with status := COMPLETED } := by
  unfold handleFilesSelected
  simp only [if_pos hname]
  rw [List.get?_eq_getElem?, List.getElem?_map, ← List.get?_eq_getElem?, hget]
  simp [hmem]

theorem handleFilesSelected_overview_none (prev : ProjectState) (entries0 : List RawFile) :
    (handleFilesSelected prev entries0 none).diagrams OVERVIEW_DIAGRAM_KEY =
      some INITIAL_OVERVIEW_MERMAID := by
  unfold handleFilesSelected
  simp

theorem handleFilesSelected_overview_some (prev : ProjectState) (entries0 : List RawFile)
    (sv : SavedState) (hov : (sv.diagrams OVERVIEW_DIAGRAM_KEY).isSome) :
    ((handleFilesSelected prev entries0 (some sv)).diagrams OVERVIEW_DIAGRAM_KEY).isSome := by
  unfold handleFilesSelected
  by_cases hname : sv.projectName = projectNameOf (toFileEntries entries0)
  · simp only [if_pos hname]
    exact hov
  · simp only [if_neg hname]
    simp

/-! ## Parser lemmas -/

theorem findSub_eq_none_iff (pat : Str) :
    ∀ (t : Str) (i : Nat), findSub pat t i = none ↔ containsSub pat t = false := by
  intro t
  induction t with
  | nil =>
    intro i
    unfold findSub containsSub
    by_cases h : pat.isPrefixOf [] = true <;> simp [h]
  | cons c rest ih =>
    intro i
    unfold findSub containsSub
    by_cases h : pat.isPrefixOf (c :: rest) = true
    · simp [h]
    · simp only [Bool.not_eq_true] at h
      simp [h, ih (i + 1)]

theorem containsSub_drop_false (pat : Str) :
    ∀ (t : Str) (k : Nat), containsSub pat t = false → containsSub pat (t.drop k) = false := by
  intro t
  induction t with
  | nil =>
    intro k h
    simpa using h
  | cons c rest ih =>
    intro k h
    unfold containsSub at h
    rcases Bool.or_eq_false_iff.mp h with ⟨h1, h2⟩
    cases k with
    | zero => exact h
    | succ n =>
      simp only [List.drop_succ_cons]
      exact ih n h2

theorem parseOutput_module_absent (text o m nm : Str)
    (h : containsSub moduleMarker text = false) :
    (parseOutput text o m nm).moduleDiagram = m := by
  unfold parseOutput regexCapture
  rw [(findSub_eq_none_iff moduleMarker text 0).mpr h]

theorem parseOutput_overview_absent (text o m nm : Str)
    (h : containsSub overviewMarker text = false) :
    (parseOutput text o m nm).overviewDiagram = o := by
  unfold parseOutput regexCapture
  rw [(findSub_eq_none_iff overviewMarker text 0).mpr h]

theorem parseOutput_overview_updates (text o m nm : Str) (i : Nat)
    (hov : findSub overviewMarker text 0 = some i)
    (hmod : containsSub moduleMarker text = false) :
    (parseOutput text o m nm).overviewDiagram =
      cleanMermaid (text.drop (i + overviewMarker.length)) ∧
    (parseOutput text o m nm).moduleDiagram = m := by
  have hsuf : containsSub moduleMarker (text.drop (i + overviewMarker.length)) = false :=
    containsSub_drop_false moduleMarker text _ hmod
  constructor
  · unfold parseOutput regexCapture
    simp only [hov, (findSub_eq_none_iff moduleMarker _ 0).mpr hsuf]
  · exact parseOutput_module_absent text o m nm hmod

/-! ## CLI run-loop lemmas -/

theorem cliStep_failure_continues (files : List CliFile) (st : CliState) (i : Nat) (e : Str)
    (hlt : i < files.length)
    (hbe : (cliPlanBatch DEFAULT_BATCH_COUNT (DEFAULT_BATCH_SIZE_KB * 1024)
      MAX_FILE_SIZE_BYTES files i).1 ≠ []) :
    cliStep (fun _ _ _ => Except.error e) files st i =
      (({ st with processedFiles := st.processedFiles ++
          (cliPlanBatch DEFAULT_BATCH_COUNT (DEFAULT_BATCH_SIZE_KB * 1024)
            MAX_FILE_SIZE_BYTES files i).2.2.2 },
        (cliPlanBatch DEFAULT_BATCH_COUNT (DEFAULT_BATCH_SIZE_KB * 1024)
          MAX_FILE_SIZE_BYTES files i).2.1), true) := by
  unfold cliStep
  simp only [if_neg (Nat.not_le.mpr hlt)]

/-! ## Claim theorems -/

/-- C5: for every model response, `parseOutput` leaves a diagram at its prior
value when that diagram's section marker is absent; in particular a response
containing the overview marker but no module marker updates the overview from
the captured section while the module diagram stays at its prior value. -/
theorem C5_parser_absent_marker_preserves_prior :
    (∀ text o m nm : Str, containsSub overviewMarker text = false →
      (parseOutput text o m nm).overviewDiagram = o) ∧
    (∀ text o m nm : Str, containsSub moduleMarker text = false →
      (parseOutput text o m nm).moduleDiagram = m) ∧
    (∀ (text o m nm : Str) (i : Nat), findSub overviewMarker text 0 = some i →
      containsSub moduleMarker text = false →
      (parseOutput text o m nm).overviewDiagram =
        cleanMermaid (text.drop (i + overviewMarker.length)) ∧
      (parseOutput text o m nm).moduleDiagram = m) :=
  ⟨parseOutput_overview_absent, parseOutput_module_absent,
    fun text o m nm i hov hmod => parseOutput_overview_updates text o m nm i hov hmod⟩

/-- Witness for C5 at a concrete response containing only the overview marker. -/
theorem C5_parser_absent_marker_preserves_prior_witness :
    containsSub moduleMarker (str "<<<OVERVIEW>>>graph TD") = false ∧
    findSub overviewMarker (str "<<<OVERVIEW>>>graph TD") 0 = some 0 ∧
    (parseOutput (str "<<<OVERVIEW>>>graph TD") (str "oldOv") (str "oldMod")
      (str "m")).overviewDiagram =
      cleanMermaid ((str "<<<OVERVIEW>>>graph TD").drop (0 + overviewMarker.length)) ∧
    (parseOutput (str "<<<OVERVIEW>>>graph TD") (str "oldOv") (str "oldMod")
      (str "m")).moduleDiagram = str "oldMod" :=
  ⟨by decide, by decide,
    (C5_parser_absent_marker_preserves_prior.2.2 (str "<<<OVERVIEW>>>graph TD")
      (str "oldOv") (str "oldMod") (str "m") 0 (by decide) (by decide)).1,
    (C5_parser_absent_marker_preserves_prior.2.2 (str "<<<OVERVIEW>>>graph TD")
      (str "oldOv") (str "oldMod") (str "m") 0 (by decide) (by decide)).2⟩

/-- C8: neither planner ever produces a batch whose cumulative byte size
exceeds the byte cap unless the batch contains exactly one file. -/
theorem C8_batch_bytes_bounded :
    (∀ (cl sl mf : Nat) (files : List FileEntry) (cursor : Nat),
      2 ≤ (planBatch cl sl mf files cursor).1.length →
      batchBytes files (planBatch cl sl mf files cursor).1 ≤ sl) ∧
    (∀ (cl sl mf : Nat) (files : List CliFile) (i : Nat),
      2 ≤ (cliPlanBatch cl sl mf files i).1.length →
      cliBatchBytes (cliPlanBatch cl sl mf files i).1 ≤ sl) := by
  constructor
  · intro cl sl mf files cursor
    exact (planBatch_sound cl sl mf files cursor).2.2.2.2.2.2
  · intro cl sl mf files i
    exact cliPlanAux_size_sound cl sl mf (files.drop i) i [] 0 none []
      (by simp [cliBatchBytes]) (by intro h; simp at h)

/-- Witness for C8 at the spec's own scenario (two 10 KB files in one
directory, 50 KB cap). -/
theorem C8_batch_bytes_bounded_witness :
    2 ≤ (planBatch 5 51200 102400
      [{ path := str "a/x.go", size := 10240, status := PENDING },
       { path := str "a/y.go", size := 10240, status := PENDING },
       { path := str "b/z.go", size := 10240, status := PENDING }] 0).1.length ∧
    batchBytes
      [{ path := str "a/x.go", size := 10240, status := PENDING },
       { path := str "a/y.go", size := 10240, status := PENDING },
       { path := str "b/z.go", size := 10240, status := PENDING }]
      (planBatch 5 51200 102400
        [{ path := str "a/x.go", size := 10240, status := PENDING },
         { path := str "a/y.go", size := 10240, status := PENDING },
         { path := str "b/z.go", size := 10240, status := PENDING }] 0).1 ≤ 51200 :=
  ⟨by decide,
    C8_batch_bytes_bounded.1 5 51200 102400
      [{ path := str "a/x.go", size := 10240, status := PENDING },
       { path := str "a/y.go", size := 10240, status := PENDING },
       { path := str "b/z.go", size := 10240, status := PENDING }] 0 (by decide)⟩

/-- C10: on restore (auto-save restore in `handleFilesSelected`, or manual
`handleLoadState`) every file whose path is in `filePathsProcessed` is
assigned Completed — including previously Skipped files — so Skipped status
never survives a save/load round trip. -/
theorem C10_restore_marks_members_completed :
    (∀ (prev : ProjectState) (entries0 : List RawFile) (sv : SavedState) (i : Nat)
        (r : FileEntry),
      sv.projectName = projectNameOf (toFileEntries entries0) →
      (toFileEntries entries0).get? i = some r →
      r.path ∈ sv.filePathsProcessed →
      (handleFilesSelected prev entries0 (some sv)).files.get? i =
        some { r with status := COMPLETED }) ∧
    (∀ (s : ProjectState) (json : SavedState) (i : Nat) (f : FileEntry),
      s.files.get? i = some f → f.path ∈ json.filePathsProcessed →
      (handleLoadState s json).files.get? i = some { f with status := COMPLETED }) ∧
    (∀ (s : ProjectState) (i : Nat) (f : FileEntry),
      s.files.get? i = some f → f.status = SKIPPED →
      f.path ∈ (autoSaveSnapshot s).filePathsProcessed ∧
      (handleLoadState s (autoSaveSnapshot s)).files.get? i =
        some { f with status := COMPLETED }) := by
  refine ⟨handleFilesSelected_member, handleLoadState_member, ?_⟩
  intro s i f hget hskip
  exact ⟨(autoSave_mem_iff s f.path).mpr ⟨f, List.get?_mem hget, rfl, Or.inr hskip⟩,
    skipped_roundtrip s i f hget hskip⟩

/-- Witness for C10: a Skipped file round-trips to Completed through the
auto-save snapshot. -/
theorem C10_restore_marks_members_completed_witness :
    ({ projectName := str "p"
       files := [{ path := str "p/big.go", size := 200000, status := SKIPPED }]
       processedCount := 1
       totalCount := 1
       currentFileIndex := 1
       isProcessing := false
       diagrams := fun _ => none
       activeDiagramId := []
       logs := [] } : ProjectState).files.get? 0 =
      some { path := str "p/big.go", size := 200000, status := SKIPPED } ∧
    (handleLoadState
      { projectName := str "p"
        files := [{ path := str "p/big.go", size := 200000, status := SKIPPED }]
        processedCount := 1
        totalCount := 1
        currentFileIndex := 1
        isProcessing := false
        diagrams := fun _ => none
        activeDiagramId := []
        logs := [] }
      (autoSaveSnapshot
        { projectName := str "p"
          files := [{ path := str "p/big.go", size := 200000, status := SKIPPED }]
          processedCount := 1
          totalCount := 1
          currentFileIndex := 1
          isProcessing := false
          diagrams := fun _ => none
          activeDiagramId := []
          logs := [] })).files.get? 0 =
      some { path := str "p/big.go", size := 200000, status := COMPLETED } :=
  ⟨by decide,
    (C10_restore_marks_members_completed.2.2
      { projectName := str "p"
        files := [{ path := str "p/big.go", size := 200000, status := SKIPPED }]
        processedCount := 1
        totalCount := 1
        currentFileIndex := 1
        isProcessing := false
        diagrams := fun _ => none
        activeDiagramId := []
        logs := [] } 0
      { path := str "p/big.go", size := 200000, status := SKIPPED }
      (by decide) (by decide)).2⟩

/-- C1 counterexample: retrying a Failed file decrements `processedCount`
although the Completed/Skipped count is unchanged, breaking the invariant;
and restoring an auto-save snapshot whose stored count disagrees with the
marked files also breaks it. -/
theorem C1_counterexample :
    RunInv
      { projectName := str "p"
        files := [{ path := str "a/done.ts", size := 10, status := COMPLETED },
                  { path := str "a/bad.ts", size := 10, status := FAILED }]
        processedCount := 1
        totalCount := 2
        currentFileIndex := 1
        isProcessing := false
        diagrams := fun _ => none
        activeDiagramId := []
        logs := [] } ∧
    (([{ path := str "a/done.ts", size := 10, status := COMPLETED },
       { path := str "a/bad.ts", size := 10, status := FAILED }] : List FileEntry).get? 1).map
        (·.status) = some FAILED ∧
    ¬ RunInv (handleRetry
      { projectName := str "p"
        files := [{ path := str "a/done.ts", size := 10, status := COMPLETED },
                  { path := str "a/bad.ts", size := 10, status := FAILED }]
        processedCount := 1
        totalCount := 2
        currentFileIndex := 1
        isProcessing := false
        diagrams := fun _ => none
        activeDiagramId := []
        logs := [] } 1) ∧
    ¬ RunInv (handleFilesSelected initialProjectState
      [{ path := str "p/a.ts", size := 10 }]
      (some { projectName := str "p"
              processedCount := 3
              currentFileIndex := 0
              diagrams := fun _ => none
              logs := []
              filePathsProcessed := [] })) := by
  refine ⟨by decide, by decide, ?_, ?_⟩
  · unfold RunInv handleRetry
    decide
  · unfold RunInv handleFilesSelected
    decide

/-- C1 (amended): every run-loop operation — batch success, skip, empty-batch
advance and batch failure — preserves `processedCount = countCS files`; retry
of a Failed file leaves the Completed/Skipped count unchanged while
decrementing `processedCount` by one (floored at zero), so it breaks the
equality whenever the count is positive; restoring with no (or mismatched)
auto-save yields a state satisfying the equality, and restoring a matching
snapshot re-establishes it exactly when the snapshot's stored count equals
the number of files it marks Completed. -/
theorem C1_processedCount_invariant :
    (∀ (bc bs : Nat) (gen : Str → Option Str → List (Str × Str) → Except Str C4UpdateResult)
        (s : ProjectState), RunInv s → RunInv (processNextFileStep bc bs gen s).1) ∧
    (∀ (s : ProjectState) (i : Nat) (f : FileEntry),
      s.files.get? i = some f → f.status = FAILED →
      countCS (handleRetry s i).files = countCS s.files ∧
      (handleRetry s i).processedCount = s.processedCount - 1) ∧
    (∀ (prev : ProjectState) (entries0 : List RawFile),
      RunInv (handleFilesSelected prev entries0 none)) ∧
    (∀ (prev : ProjectState) (entries0 : List RawFile) (sv : SavedState),
      sv.processedCount = ((toFileEntries entries0).filter
        (fun f => decide (f.path ∈ sv.filePathsProcessed))).length →
      RunInv (handleFilesSelected prev entries0 (some sv))) :=
  ⟨step_preserves_RunInv, handleRetry_countCS,
    handleFilesSelected_RunInv_none, handleFilesSelected_RunInv_some⟩

/-- Witness for C1 at a concrete one-file run step and a concrete retry. -/
theorem C1_processedCount_invariant_witness :
    RunInv
      { projectName := str "p"
        files := [{ path := str "a/f.ts", size := 10, status := PENDING }]
        processedCount := 0
        totalCount := 1
        currentFileIndex := 0
        isProcessing := true
        diagrams := fun k => if k = OVERVIEW_DIAGRAM_KEY then some INITIAL_OVERVIEW_MERMAID else none
        activeDiagramId := []
        logs := [] } ∧
    RunInv (processNextFileStep 5 50
      (fun _ _ _ =>
        Except.ok { overviewDiagram := str "ov", moduleDiagram := str "md", moduleName := str "a" })
      { projectName := str "p"
        files := [{ path := str "a/f.ts", size := 10, status := PENDING }]
        processedCount := 0
        totalCount := 1
        currentFileIndex := 0
        isProcessing := true
        diagrams := fun k => if k = OVERVIEW_DIAGRAM_KEY then some INITIAL_OVERVIEW_MERMAID else none
        activeDiagramId := []
        logs := [] }).1 ∧
    countCS (handleRetry
      { projectName := str "p"
        files := [{ path := str "b/g.ts", size := 10, status := FAILED }]
        processedCount := 0
        totalCount := 1
        currentFileIndex := 0
        isProcessing := false
        diagrams := fun _ => none
        activeDiagramId := []
        logs := [] } 0).files = countCS
          [({ path := str "b/g.ts", size := 10, status := FAILED } : FileEntry)] :=
  ⟨by decide,
    C1_processedCount_invariant.1 5 50
      (fun _ _ _ =>
        Except.ok { overviewDiagram := str "ov", moduleDiagram := str "md", moduleName := str "a" })
      { projectName := str "p"
        files := [{ path := str "a/f.ts", size := 10, status := PENDING }]
        processedCount := 0
        totalCount := 1
        currentFileIndex := 0
        isProcessing := true
        diagrams := fun k => if k = OVERVIEW_DIAGRAM_KEY then some INITIAL_OVERVIEW_MERMAID else none
        activeDiagramId := []
        logs := [] } (by decide),
    (C1_processedCount_invariant.2.1
      { projectName := str "p"
        files := [{ path := str "b/g.ts", size := 10, status := FAILED }]
        processedCount := 0
        totalCount := 1
        currentFileIndex := 0
        isProcessing := false
        diagrams := fun _ => none
        activeDiagramId := []
        logs := [] } 0
      { path := str "b/g.ts", size := 10, status := FAILED }
      (by decide) (by decide)).1⟩

/-- Two small files in different directories, for exercising the CLI loop. -/
def c2files : List CliFile :=
  [{ path := str "a/x.go", size := 10, content := str "ax" },
   { path := str "b/y.go", size := 10, content := str "by" }]

/-- A generation oracle that fails exactly on the batch starting with
`a/x.go` and succeeds elsewhere. -/
def c2gen : Str → Option Str → List CliFile → Except Str C4UpdateResult :=
  fun _ _ batch =>
    if (batch.map (·.path)).headI = str "a/x.go" then Except.error (str "boom")
    else Except.ok
      { overviewDiagram := str "OV2"
        moduleDiagram := str "MOD2"
        moduleName := str "b" }

/-- A fresh CLI state with an empty diagram map, for the C2 witness. -/
def c2init : CliState := { processedFiles := [], diagrams := fun _ => none }

/-- C2 counterexample: in the CLI runner the first batch (`a/x.go`) fails,
yet the run does not stop — the loop continues and successfully processes the
next batch (`b/y.go`), whose path ends up in `processedFiles` of the same run. -/
theorem C2_counterexample :
    (cliPlanBatch DEFAULT_BATCH_COUNT (DEFAULT_BATCH_SIZE_KB * 1024) MAX_FILE_SIZE_BYTES
      c2files 0).1.map (·.path) = [str "a/x.go"] ∧
    c2gen [] none (cliPlanBatch DEFAULT_BATCH_COUNT (DEFAULT_BATCH_SIZE_KB * 1024)
      MAX_FILE_SIZE_BYTES c2files 0).1 = Except.error (str "boom") ∧
    (cliRunAux c2gen c2files 5 cliInitialState 0).processedFiles = [str "b/y.go"] := by
  refine ⟨by decide, by rfl, ?_⟩
  decide

/-- C2 (amended): in the interactive app a failed batch marks exactly its
files Failed with the error message attached, leaves every other file, the
diagrams, `processedCount` and the cursor unchanged, sets `isProcessing`
to false and schedules no further iteration; in the headless CLI a failed
batch likewise contributes nothing to `processedFiles` or the diagrams, but
the loop continues with the next batch instead of stopping. -/
theorem C2_failure_scoped_and_loop_behaviour :
    (∀ (s : ProjectState) (idxs : List Nat) (e : Str),
      List.Pairwise (· ≠ ·) idxs →
      (∀ i ∈ idxs, (failureUpdate s idxs e).files.get? i =
        (s.files.get? i).map (fun f => { f with status := FAILED, error := some e })) ∧
      (∀ j, j ∉ idxs → (failureUpdate s idxs e).files.get? j = s.files.get? j) ∧
      (failureUpdate s idxs e).diagrams = s.diagrams ∧
      (failureUpdate s idxs e).processedCount = s.processedCount ∧
      (failureUpdate s idxs e).currentFileIndex = s.currentFileIndex ∧
      (failureUpdate s idxs e).isProcessing = false) ∧
    (∀ (bc bs : Nat) (e : Str) (s : ProjectState),
      s.isProcessing = true →
      s.currentFileIndex < s.files.length →
      (planBatch (orDefault bc DEFAULT_BATCH_COUNT)
        (orDefault bs DEFAULT_BATCH_SIZE_KB * 1024) MAX_FILE_SIZE_BYTES
        s.files s.currentFileIndex).1 ≠ [] →
      skipOnlyBatch s.files (planBatch (orDefault bc DEFAULT_BATCH_COUNT)
        (orDefault bs DEFAULT_BATCH_SIZE_KB * 1024) MAX_FILE_SIZE_BYTES
        s.files s.currentFileIndex).1 = false →
      processNextFileStep bc bs (fun _ _ _ => Except.error e) s =
        (failureUpdate s (planBatch (orDefault bc DEFAULT_BATCH_COUNT)
          (orDefault bs DEFAULT_BATCH_SIZE_KB * 1024) MAX_FILE_SIZE_BYTES
          s.files s.currentFileIndex).1 e, false)) ∧
    (∀ (files : List CliFile) (st : CliState) (i : Nat) (e : Str),
      i < files.length →
      (cliPlanBatch DEFAULT_BATCH_COUNT (DEFAULT_BATCH_SIZE_KB * 1024)
        MAX_FILE_SIZE_BYTES files i).1 ≠ [] →
      cliStep (fun _ _ _ => Except.error e) files st i =
        (({ st with processedFiles := st.processedFiles ++
            (cliPlanBatch DEFAULT_BATCH_COUNT (DEFAULT_BATCH_SIZE_KB * 1024)
              MAX_FILE_SIZE_BYTES files i).2.2.2 },
          (cliPlanBatch DEFAULT_BATCH_COUNT (DEFAULT_BATCH_SIZE_KB * 1024)
            MAX_FILE_SIZE_BYTES files i).2.1), true)) := by
  refine ⟨?_, step_failure_eq, cliStep_failure_continues⟩
  intro s idxs e hpw
  refine ⟨?_, ?_, rfl, rfl, rfl, rfl⟩
  · intro i hi
    unfold failureUpdate
    simp only
    exact get?_setFailedAll_mem e idxs s.files i hpw hi
  · intro j hj
    unfold failureUpdate
    simp only
    exact get?_setFailedAll_not_mem e idxs s.files j hj

/-- Witness for C2 at a concrete one-file interactive state and a concrete
CLI state. -/
theorem C2_failure_scoped_and_loop_behaviour_witness :
    (processNextFileStep 5 50 (fun _ _ _ => Except.error (str "boom"))
      { projectName := str "p"
        files := [{ path := str "a/f.ts", size := 10, status := PENDING }]
        processedCount := 0
        totalCount := 1
        currentFileIndex := 0
        isProcessing := true
        diagrams := fun _ => none
        activeDiagramId := []
        logs := [] } =
      (failureUpdate
        { projectName := str "p"
          files := [{ path := str "a/f.ts", size := 10, status := PENDING }]
          processedCount := 0
          totalCount := 1
          currentFileIndex := 0
          isProcessing := true
          diagrams := fun _ => none
          activeDiagramId := []
          logs := [] }
        (planBatch (orDefault 5 DEFAULT_BATCH_COUNT)
          (orDefault 50 DEFAULT_BATCH_SIZE_KB * 1024) MAX_FILE_SIZE_BYTES
          [{ path := str "a/f.ts", size := 10, status := PENDING }] 0).1
        (str "boom"), false)) ∧
    cliStep (fun _ _ _ => Except.error (str "boom")) c2files c2init 0 =
      (({ c2init with processedFiles := c2init.processedFiles ++
          (cliPlanBatch DEFAULT_BATCH_COUNT (DEFAULT_BATCH_SIZE_KB * 1024)
            MAX_FILE_SIZE_BYTES c2files 0).2.2.2 },
        (cliPlanBatch DEFAULT_BATCH_COUNT (DEFAULT_BATCH_SIZE_KB * 1024)
          MAX_FILE_SIZE_BYTES c2files 0).2.1), true) :=
  ⟨C2_failure_scoped_and_loop_behaviour.2.1 5 50 (str "boom")
    { projectName := str "p"
      files := [{ path := str "a/f.ts", size := 10, status := PENDING }]
      processedCount := 0
      totalCount := 1
      currentFileIndex := 0
      isProcessing := true
      diagrams := fun _ => none
      activeDiagramId := []
      logs := [] } rfl (by decide) (by decide) (by decide),
   C2_failure_scoped_and_loop_behaviour.2.2 c2files c2init 0 (str "boom")
    (by decide) (by decide)⟩

/-- C3 counterexample: retrying the Failed file at index 1 — which was never
counted, since `processedCount` equals the Completed/Skipped count and that
file is Failed — still decrements `processedCount` from 1 to 0; and a manual
state load is a second operation that can move the cursor backward (2 to 0). -/
theorem C3_counterexample :
    RunInv
      { projectName := str "p"
        files := [{ path := str "c/ok.ts", size := 10, status := COMPLETED },
                  { path := str "c/bad.ts", size := 10, status := FAILED }]
        processedCount := 1
        totalCount := 2
        currentFileIndex := 2
        isProcessing := false
        diagrams := fun _ => none
        activeDiagramId := []
        logs := [] } ∧
    (handleRetry
      { projectName := str "p"
        files := [{ path := str "c/ok.ts", size := 10, status := COMPLETED },
                  { path := str "c/bad.ts", size := 10, status := FAILED }]
        processedCount := 1
        totalCount := 2
        currentFileIndex := 2
        isProcessing := false
        diagrams := fun _ => none
        activeDiagramId := []
        logs := [] } 1).processedCount = 0 ∧
    (handleLoadState
      { projectName := str "p"
        files := [{ path := str "c/ok.ts", size := 10, status := COMPLETED },
                  { path := str "c/bad.ts", size := 10, status := FAILED }]
        processedCount := 1
        totalCount := 2
        currentFileIndex := 2
        isProcessing := false
        diagrams := fun _ => none
        activeDiagramId := []
        logs := [] }
      { projectName := str "p"
        processedCount := 0
        currentFileIndex := 0
        diagrams := fun _ => none
        logs := []
        filePathsProcessed := [] }).currentFileIndex = 0 := by
  refine ⟨by decide, ?_, ?_⟩
  · unfold handleRetry; decide
  · unfold handleLoadState; decide

/-- C3 (amended): retrying a Failed file at index `i` sets its status to
Pending with the error cleared, sets the cursor to `min(currentCursor, i)`
(hence cursor ≤ i), and decrements `processedCount` by one whenever it is
positive, regardless of whether that file had been counted; among the
run-loop operations the cursor never moves backward (a manual state load can
additionally set it anywhere). -/
theorem C3_retry_rewinds_cursor :
    (∀ (s : ProjectState) (i : Nat) (f : FileEntry),
      s.files.get? i = some f → f.status = FAILED →
      (handleRetry s i).files.get? i = some { f with status := PENDING, error := none } ∧
      (handleRetry s i).currentFileIndex = min s.currentFileIndex i ∧
      (handleRetry s i).currentFileIndex ≤ i ∧
      (handleRetry s i).processedCount = s.processedCount - 1) ∧
    (∀ (bc bs : Nat) (gen : Str → Option Str → List (Str × Str) → Except Str C4UpdateResult)
        (s : ProjectState),
      s.currentFileIndex ≤ (processNextFileStep bc bs gen s).1.currentFileIndex) := by
  constructor
  · intro s i f hget _
    obtain ⟨h1, _, h3, h4, _⟩ := handleRetry_spec s i f hget
    exact ⟨h1, h3, by rw [h3]; exact Nat.min_le_right _ _, h4⟩
  · exact step_cursor_mono

/-- Witness for C3 at a concrete Failed file and a concrete step. -/
theorem C3_retry_rewinds_cursor_witness :
    (handleRetry
      { projectName := str "p"
        files := [{ path := str "d/bad.ts", size := 10, status := FAILED, error := some (str "e") }]
        processedCount := 0
        totalCount := 1
        currentFileIndex := 1
        isProcessing := false
        diagrams := fun _ => none
        activeDiagramId := []
        logs := [] } 0).currentFileIndex ≤ 0 ∧
    ({ projectName := str "p"
       files := []
       processedCount := 0
       totalCount := 0
       currentFileIndex := 0
       isProcessing := false
       diagrams := fun _ => none
       activeDiagramId := []
       logs := [] } : ProjectState).currentFileIndex ≤
      (processNextFileStep 5 50 (fun _ _ _ => Except.error (str "x"))
        { projectName := str "p"
          files := []
          processedCount := 0
          totalCount := 0
          currentFileIndex := 0
          isProcessing := false
          diagrams := fun _ => none
          activeDiagramId := []
          logs := [] }).1.currentFileIndex :=
  ⟨(C3_retry_rewinds_cursor.1
      { projectName := str "p"
        files := [{ path := str "d/bad.ts", size := 10, status := FAILED, error := some (str "e") }]
        processedCount := 0
        totalCount := 1
        currentFileIndex := 1
        isProcessing := false
        diagrams := fun _ => none
        activeDiagramId := []
        logs := [] } 0
      { path := str "d/bad.ts", size := 10, status := FAILED, error := some (str "e") }
      (by decide) (by decide)).2.2.1,
   C3_retry_rewinds_cursor.2 5 50 (fun _ _ _ => Except.error (str "x"))
      { projectName := str "p"
        files := []
        processedCount := 0
        totalCount := 0
        currentFileIndex := 0
        isProcessing := false
        diagrams := fun _ => none
        activeDiagramId := []
        logs := [] }⟩

/-- An oversized file in directory `a` followed by a small file in
directory `b`, for the C4 counterexample. -/
def c4files : List CliFile :=
  [{ path := str "a/big.go", size := 200000 },
   { path := str "b/x.go", size := 10 }]

/-- C4 counterexample: in the CLI planner the oversized `a/big.go` is
examined first, fixes the batch directory to `a`, and is then skipped — never
admitted — yet the produced batch `[b/x.go]` resolves to key `a`, not to the
directory `b` of the first (and only) admitted file. -/
theorem C4_counterexample :
    (cliPlanBatch DEFAULT_BATCH_COUNT (DEFAULT_BATCH_SIZE_KB * 1024) MAX_FILE_SIZE_BYTES
      c4files 0).1.map (·.path) = [str "b/x.go"] ∧
    (cliPlanBatch DEFAULT_BATCH_COUNT (DEFAULT_BATCH_SIZE_KB * 1024) MAX_FILE_SIZE_BYTES
      c4files 0).2.2.2 = [str "a/big.go"] ∧
    resolvedBatchKey (cliPlanBatch DEFAULT_BATCH_COUNT (DEFAULT_BATCH_SIZE_KB * 1024)
      MAX_FILE_SIZE_BYTES c4files 0).2.2.1 = str "a" ∧
    dirname (str "b/x.go") = str "b" ∧
    str "a" ≠ str "b" := by
  refine ⟨by decide, by decide, by decide, by decide, by decide⟩

/-- C4 (amended): in the interactive planner the resolved batch key is the
directory component of the first admitted file (sentinel `root` when that
component is empty); in the CLI planner the batch directory is instead fixed
by the first *examined* candidate — even one that is skipped as oversized and
never admitted — and a root-level file yields `.` rather than `root` there. -/
theorem C4_batch_key_from_first_file :
    (∀ (cl sl mf : Nat) (files : List FileEntry) (cursor i0 : Nat) (rest : List Nat),
      (planBatch cl sl mf files cursor).1 = i0 :: rest →
      ∃ f, files.get? i0 = some f ∧
        (planBatch cl sl mf files cursor).2.2 = some (dirOf f.path) ∧
        resolvedBatchKey (planBatch cl sl mf files cursor).2.2 =
          (if dirOf f.path = [] then str "root" else dirOf f.path)) ∧
    (∀ (cl sl mf : Nat) (files : List CliFile) (i : Nat) (f : CliFile) (rs : List CliFile),
      files.drop i = f :: rs → 0 < cl →
      (cliPlanBatch cl sl mf files i).2.2.1 = some (dirname f.path)) := by
  constructor
  · intro cl sl mf files cursor i0 rest hbatch
    obtain ⟨_, _, hc3, _, hc5, hc6, _⟩ := planBatch_sound cl sl mf files cursor
    have hmem : i0 ∈ (planBatch cl sl mf files cursor).1 := by rw [hbatch]; simp
    obtain ⟨f, hget, _⟩ := hc3 i0 hmem
    have hdir : (planBatch cl sl mf files cursor).2.2 ≠ none := by
      intro hc
      rw [hc5.mpr hc] at hbatch
      exact List.noConfusion hbatch
    obtain ⟨d, hd⟩ := Option.ne_none_iff_exists'.mp hdir
    have hder := hc6 d hd i0 hmem f hget
    refine ⟨f, hget, ?_, ?_⟩
    · rw [hd, hder]
    · rw [hd, hder]
      rfl
  · intro cl sl mf files i f rs hdrop hcl
    unfold cliPlanBatch
    rw [hdrop]
    exact cliPlanAux_dir_first cl sl mf f rs i 0 [] hcl

/-- Witness for C4 at the spec's scenario files (batch `[a/x.go, a/y.go]`,
key `a`) and at a concrete CLI suffix. -/
theorem C4_batch_key_from_first_file_witness :
    (planBatch 5 51200 102400
      [{ path := str "a/x.go", size := 10240, status := PENDING },
       { path := str "a/y.go", size := 10240, status := PENDING },
       { path := str "b/z.go", size := 10240, status := PENDING }] 0).1 = [0, 1] ∧
    (∃ f, ([{ path := str "a/x.go", size := 10240, status := PENDING },
            { path := str "a/y.go", size := 10240, status := PENDING },
            { path := str "b/z.go", size := 10240, status := PENDING }] : List FileEntry).get? 0 =
        some f ∧
      (planBatch 5 51200 102400
        [{ path := str "a/x.go", size := 10240, status := PENDING },
         { path := str "a/y.go", size := 10240, status := PENDING },
         { path := str "b/z.go", size := 10240, status := PENDING }] 0).2.2 =
        some (dirOf f.path) ∧
      resolvedBatchKey (planBatch 5 51200 102400
        [{ path := str "a/x.go", size := 10240, status := PENDING },
         { path := str "a/y.go", size := 10240, status := PENDING },
         { path := str "b/z.go", size := 10240, status := PENDING }] 0).2.2 =
        (if dirOf f.path = [] then str "root" else dirOf f.path)) ∧
    (cliPlanBatch 5 51200 102400 c4files 0).2.2.1 =
      some (dirname ({ path := str "a/big.go", size := 200000 } : CliFile).path) :=
  ⟨by decide,
    C4_batch_key_from_first_file.1 5 51200 102400
      [{ path := str "a/x.go", size := 10240, status := PENDING },
       { path := str "a/y.go", size := 10240, status := PENDING },
       { path := str "b/z.go", size := 10240, status := PENDING }] 0 0 [1] (by decide),
    C4_batch_key_from_first_file.2 5 51200 102400 c4files 0
      { path := str "a/big.go", size := 200000 }
      [{ path := str "b/x.go", size := 10 }] (by decide) (by decide)⟩

/-- C6 counterexample: after loading a snapshot whose `currentFileIndex` is 2
into a session with two still-Pending files, the manual save
(`handleSaveState`, which serializes `files.slice(0, currentFileIndex)`)
includes the paths of Pending files. -/
theorem C6_counterexample :
    (((handleLoadState
      { projectName := str "p"
        files := [{ path := str "p/a.ts", size := 10, status := PENDING },
                  { path := str "p/b.ts", size := 10, status := PENDING }]
        processedCount := 0
        totalCount := 2
        currentFileIndex := 0
        isProcessing := false
        diagrams := fun _ => none
        activeDiagramId := []
        logs := [] }
      { projectName := str "p"
        processedCount := 2
        currentFileIndex := 2
        diagrams := fun _ => none
        logs := []
        filePathsProcessed := [] }).files.get? 0).map (·.status)) = some PENDING ∧
    (manualSaveSnapshot (handleLoadState
      { projectName := str "p"
        files := [{ path := str "p/a.ts", size := 10, status := PENDING },
                  { path := str "p/b.ts", size := 10, status := PENDING }]
        processedCount := 0
        totalCount := 2
        currentFileIndex := 0
        isProcessing := false
        diagrams := fun _ => none
        activeDiagramId := []
        logs := [] }
      { projectName := str "p"
        processedCount := 2
        currentFileIndex := 2
        diagrams := fun _ => none
        logs := []
        filePathsProcessed := [] })).filePathsProcessed =
      [str "p/a.ts", str "p/b.ts"] :=
  ⟨by decide, by decide⟩

/-- C6 (amended): the auto-save snapshot's `filePathsProcessed` contains
exactly the paths of files whose status is Completed or Skipped; the manual
save instead serializes exactly the paths before the cursor, which coincide
with the Completed/Skipped paths precisely on states where position before
the cursor and terminal status agree (they can differ after a state load). -/
theorem C6_snapshot_paths_exact :
    (∀ (s : ProjectState) (p : Str),
      p ∈ (autoSaveSnapshot s).filePathsProcessed ↔
        ∃ f ∈ s.files, f.path = p ∧ isCS f.status) ∧
    (∀ (s : ProjectState),
      (∀ i (h : i < s.files.length),
        (i < s.currentFileIndex ↔ isCS (s.files.get ⟨i, h⟩).status)) →
      ∀ p : Str, p ∈ (manualSaveSnapshot s).filePathsProcessed ↔
        ∃ f ∈ s.files, f.path = p ∧ isCS f.status) :=
  ⟨autoSave_mem_iff, fun s halign p => manualSave_mem_iff_of_aligned s halign p⟩

/-- Witness for C6 at a concrete aligned state (one Completed file, cursor 1). -/
theorem C6_snapshot_paths_exact_witness :
    (str "c6/x.ts" ∈ (manualSaveSnapshot
      { projectName := str "p"
        files := [{ path := str "c6/x.ts", size := 10, status := COMPLETED }]
        processedCount := 1
        totalCount := 1
        currentFileIndex := 1
        isProcessing := false
        diagrams := fun _ => none
        activeDiagramId := []
        logs := [] }).filePathsProcessed ↔
      ∃ f ∈ ({ projectName := str "p"
               files := [{ path := str "c6/x.ts", size := 10, status := COMPLETED }]
               processedCount := 1
               totalCount := 1
               currentFileIndex := 1
               isProcessing := false
               diagrams := fun _ => none
               activeDiagramId := []
               logs := [] } : ProjectState).files, f.path = str "c6/x.ts" ∧ isCS f.status) :=
  C6_snapshot_paths_exact.2
    { projectName := str "p"
      files := [{ path := str "c6/x.ts", size := 10, status := COMPLETED }]
      processedCount := 1
      totalCount := 1
      currentFileIndex := 1
      isProcessing := false
      diagrams := fun _ => none
      activeDiagramId := []
      logs := [] }
    (by
      intro i h
      simp only [List.length_cons, List.length_nil] at h
      have hi : i = 0 := by omega
      subst hi
      constructor
      · intro _
        exact Or.inl rfl
      · intro _
        exact Nat.one_pos)
    (str "c6/x.ts")

/-- Files for the C7 counterexample: an oversized file in `a`, then a file in
`b`, then a small file in `a` again. -/
def c7files : List CliFile :=
  [{ path := str "a/big.go", size := 200000 },
   { path := str "b/x.go", size := 10 },
   { path := str "a/z.go", size := 10 }]

/-- C7 counterexample: the CLI planner produces the two-file batch
`[b/x.go, a/z.go]` spanning directories `b` and `a` — the skipped oversized
file pinned the batch directory to `a`, so the later `a/z.go` passes the
coherence check even though the batch was opened by `b/x.go`. -/
theorem C7_counterexample :
    (cliPlanBatch DEFAULT_BATCH_COUNT (DEFAULT_BATCH_SIZE_KB * 1024) MAX_FILE_SIZE_BYTES
      c7files 0).1.map (·.path) = [str "b/x.go", str "a/z.go"] ∧
    dirname (str "b/x.go") ≠ dirname (str "a/z.go") ∧
    (cliPlanBatch DEFAULT_BATCH_COUNT (DEFAULT_BATCH_SIZE_KB * 1024) MAX_FILE_SIZE_BYTES
      c7files 0).1.length = 2 := by
  exact ⟨by decide, by decide, by decide⟩

/-- C7 (amended): the interactive planner never produces a batch containing
files from two different directories; the CLI planner can, when a skipped
oversized file has pinned the batch directory (counterexample above). -/
theorem C7_batch_single_directory :
    ∀ (cl sl mf : Nat) (files : List FileEntry) (cursor : Nat) (i j : Nat)
      (f g : FileEntry),
      i ∈ (planBatch cl sl mf files cursor).1 →
      j ∈ (planBatch cl sl mf files cursor).1 →
      files.get? i = some f → files.get? j = some g →
      dirOf f.path = dirOf g.path := by
  intro cl sl mf files cursor i j f g hi hj hf hg
  obtain ⟨_, _, _, _, hc5, hc6, _⟩ := planBatch_sound cl sl mf files cursor
  have hdir : (planBatch cl sl mf files cursor).2.2 ≠ none := by
    intro hc
    rw [hc5.mpr hc] at hi
    simp at hi
  obtain ⟨d, hd⟩ := Option.ne_none_iff_exists'.mp hdir
  rw [hc6 d hd i hi f hf, hc6 d hd j hj g hg]

/-- Witness for C7 at the spec's scenario: both files of batch `[0, 1]` lie
in directory `a`. -/
theorem C7_batch_single_directory_witness :
    dirOf (str "a/x.go") = dirOf (str "a/y.go") :=
  C7_batch_single_directory 5 51200 102400
    [{ path := str "a/x.go", size := 10240, status := PENDING },
     { path := str "a/y.go", size := 10240, status := PENDING },
     { path := str "b/z.go", size := 10240, status := PENDING }] 0 0 1
    { path := str "a/x.go", size := 10240, status := PENDING }
    { path := str "a/y.go", size := 10240, status := PENDING }
    (by decide) (by decide) (by decide) (by decide)

/-- C9 counterexample: loading a well-formed snapshot whose diagram map lacks
the Overview key replaces the diagram map wholesale and removes the reserved
key that was present in the initial state. -/
theorem C9_counterexample :
    initialProjectState.diagrams OVERVIEW_DIAGRAM_KEY = some INITIAL_OVERVIEW_MERMAID ∧
    (handleLoadState initialProjectState
      { projectName := str "p"
        processedCount := 0
        currentFileIndex := 0
        diagrams := fun _ => none
        logs := []
        filePathsProcessed := [] }).diagrams OVERVIEW_DIAGRAM_KEY = none :=
  ⟨by simp [initialProjectState], rfl⟩

/-- C9 (amended): the Overview key is present with the fixed seed template at
run start; every run-loop step, retry and serialization preserves its
presence (a successful batch merge always rewrites it); a fresh file
selection reseeds it, and an auto-save restore or a manual state load
replaces the diagram map with the snapshot's, preserving the key exactly
when the snapshot's map contains it — a snapshot without the key removes it
(counterexample above). -/
theorem C9_overview_key_preserved :
    initialProjectState.diagrams OVERVIEW_DIAGRAM_KEY = some INITIAL_OVERVIEW_MERMAID ∧
    (∀ (bc bs : Nat) (gen : Str → Option Str → List (Str × Str) → Except Str C4UpdateResult)
        (s : ProjectState), (s.diagrams OVERVIEW_DIAGRAM_KEY).isSome →
      ((processNextFileStep bc bs gen s).1.diagrams OVERVIEW_DIAGRAM_KEY).isSome) ∧
    (∀ (s : ProjectState) (i : Nat), (handleRetry s i).diagrams = s.diagrams) ∧
    (∀ s : ProjectState, (autoSaveSnapshot s).diagrams = s.diagrams ∧
      (manualSaveSnapshot s).diagrams = s.diagrams) ∧
    (∀ (prev : ProjectState) (entries0 : List RawFile),
      (handleFilesSelected prev entries0 none).diagrams OVERVIEW_DIAGRAM_KEY =
        some INITIAL_OVERVIEW_MERMAID) ∧
    (∀ (prev : ProjectState) (entries0 : List RawFile) (sv : SavedState),
      (sv.diagrams OVERVIEW_DIAGRAM_KEY).isSome →
      ((handleFilesSelected prev entries0 (some sv)).diagrams OVERVIEW_DIAGRAM_KEY).isSome) ∧
    (∀ (s : ProjectState) (json : SavedState),
      (handleLoadState s json).diagrams = json.diagrams) := by
  refine ⟨by simp [initialProjectState], step_preserves_overview, ?_, ?_,
    handleFilesSelected_overview_none, handleFilesSelected_overview_some, ?_⟩
  · intro s i
    unfold handleRetry
    rfl
  · intro s
    exact ⟨rfl, rfl⟩
  · intro s json
    rfl

/-- Witness for C9 at a concrete run step on the initial diagram map. -/
theorem C9_overview_key_preserved_witness :
    (({ projectName := str "p"
        files := [{ path := str "a/f.ts", size := 10, status := PENDING }]
        processedCount := 0
        totalCount := 1
        currentFileIndex := 0
        isProcessing := true
        diagrams := fun k => if k = OVERVIEW_DIAGRAM_KEY then some INITIAL_OVERVIEW_MERMAID else none
        activeDiagramId := []
        logs := [] } : ProjectState).diagrams OVERVIEW_DIAGRAM_KEY).isSome ∧
    ((processNextFileStep 5 50
      (fun _ _ _ =>
        Except.ok { overviewDiagram := str "ov", moduleDiagram := str "md", moduleName := str "a" })
      { projectName := str "p"
        files := [{ path := str "a/f.ts", size := 10, status := PENDING }]
        processedCount := 0
        totalCount := 1
        currentFileIndex := 0
        isProcessing := true
        diagrams := fun k => if k = OVERVIEW_DIAGRAM_KEY then some INITIAL_OVERVIEW_MERMAID else none
        activeDiagramId := []
        logs := [] }).1.diagrams OVERVIEW_DIAGRAM_KEY).isSome :=
  ⟨by simp,
    C9_overview_key_preserved.2.1 5 50
      (fun _ _ _ =>
        Except.ok { overviewDiagram := str "ov", moduleDiagram := str "md", moduleName := str "a" })
      { projectName := str "p"
        files := [{ path := str "a/f.ts", size := 10, status := PENDING }]
        processedCount := 0
        totalCount := 1
        currentFileIndex := 0
        isProcessing := true
        diagrams := fun k => if k = OVERVIEW_DIAGRAM_KEY then some INITIAL_OVERVIEW_MERMAID else none
        activeDiagramId := []
        logs := [] } (by simp)⟩
